import Mathlib

/-!
Verification of the Demon_Deduce deduction solver core.

The Rust sources (`roles.rs`, `solver.rs`) are embedded shallowly:
pure functions become Lean functions, machine `usize` becomes `Nat`
(no arithmetic in the embedded fragment can overflow in a way that
changes a result), and fallible operations (slice indexing that can
panic, `assert_eq!`, `unwrap`) return `Option`, with `none` standing
for a panic.
-/

namespace DemonDeduce

/-- The closed role enumeration from `roles.rs`. -/
inductive Role where
  -- Villager
  | Alchemist | Architect | Baker | Bard | Bishop | Confessor | Dreamer | Druid
  | Empress | Enlightened | FortuneTeller | Gemcrafter | Hunter | Jester | Judge
  | Knight | Knitter | Lover | Medium | Oracle | Poet | Scout | Slayer | Witness
  -- Outcast
  | Bombardier | DoppelGanger | Drunk | PlagueDoctor | Wretch
  -- Minion
  | Counsellor | Minion | Poisoner | Puppet | Puppeteer | TwinMinion | Witch
  -- Demon
  | Baa | Lilis | Pooka
deriving DecidableEq, Repr

/-- Role groups. -/
inductive Group where
  | Villager | Outcast | Minion | Demon
deriving DecidableEq, Repr

/-- Alignments. -/
inductive Alignment where
  | Good | Evil
deriving DecidableEq, Repr

/-- `Role::group` from `roles.rs`. -/
def Role.group : Role → Group
  | .Alchemist | .Architect | .Baker | .Bard | .Bishop | .Confessor | .Dreamer | .Druid
  | .Empress | .Enlightened | .FortuneTeller | .Gemcrafter | .Hunter | .Jester | .Judge
  | .Knight | .Knitter | .Lover | .Medium | .Oracle | .Poet | .Scout | .Slayer
  | .Witness => Group.Villager
  | .Bombardier | .DoppelGanger | .PlagueDoctor | .Wretch | .Drunk => Group.Outcast
  | .Counsellor | .Minion | .Poisoner | .Puppet | .Puppeteer | .TwinMinion
  | .Witch => Group.Minion
  | .Baa | .Lilis | .Pooka => Group.Demon

/-- `Role::alignment` from `roles.rs`. -/
def Role.alignment : Role → Alignment
  | .Alchemist | .Architect | .Baker | .Bard | .Bishop | .Confessor | .Dreamer | .Druid
  | .Drunk | .Empress | .Enlightened | .FortuneTeller | .Gemcrafter | .Hunter | .Jester
  | .Judge | .Knight | .Knitter | .Lover | .Medium | .Oracle | .Poet | .Scout | .Slayer
  | .Bombardier | .DoppelGanger | .PlagueDoctor | .Witness | .Wretch => Alignment.Good
  | .Baa | .Counsellor | .Lilis | .Minion | .Poisoner | .Pooka | .Puppet | .Puppeteer
  | .TwinMinion | .Witch => Alignment.Evil

/-- `Role::lying` from `roles.rs`: whether the role lies by default. -/
def Role.lying : Role → Bool
  | .Alchemist | .Architect | .Baker | .Bard | .Bishop | .Confessor | .Dreamer | .Druid
  | .Empress | .Enlightened | .FortuneTeller | .Gemcrafter | .Hunter | .Jester | .Judge
  | .Knight | .Knitter | .Lover | .Medium | .Oracle | .Poet | .Puppet | .Scout | .Slayer
  | .Bombardier | .DoppelGanger | .PlagueDoctor | .Witness | .Wretch => false
  | .Baa | .Counsellor | .Drunk | .Lilis | .Minion | .Poisoner | .Pooka | .Puppeteer
  | .TwinMinion | .Witch => true

/-- `TargetIndexes` is `BitArray<[u8; 2], Lsb0>` in the source: a 16-bit
mask of seat indexes.  We model it by the mask value itself; set equality
is word (`Nat`) equality exactly as in the source. -/
def TargetIndexes := Nat
deriving DecidableEq

instance : Repr TargetIndexes := inferInstanceAs (Repr Nat)

/-- `iter_ones` on a 16-bit `Lsb0` bit array: the set bit positions in
increasing order. -/
def iterOnes (t : TargetIndexes) : List Nat :=
  (List.range 16).filter fun i => Nat.testBit t i

/-- `ArchitectStatement` from `roles.rs`. -/
inductive ArchitectStatement where
  | Right | Left | Equal
deriving DecidableEq, Repr

/-- `ConfessorStatement` from `roles.rs`. -/
inductive ConfessorStatement where
  | IAmGood | IAmDizzy
deriving DecidableEq, Repr

/-- `EnlightenedStatement` from `roles.rs`. -/
inductive EnlightenedStatement where
  | Clockwise | CounterClockwise | Equidistant
deriving DecidableEq, Repr

/-- The `RoleStatement` sum type from `roles.rs` (per-role payload
structs are inlined as constructor fields, in source field order). -/
inductive RoleStatement where
  | NoStatement
  | Alchemist (corrupt_count : Nat)
  | Architect (s : ArchitectStatement)
  | Bard (distance : Option Nat)
  | Bishop (target_indexes : TargetIndexes)
  | Confessor (s : ConfessorStatement)
  | Druid (target_indexes : TargetIndexes) (role : Option Role)
  | Dreamer (target_index : Nat) (role : Role)
  | Empress (target_indexes : TargetIndexes)
  | Enlightened (s : EnlightenedStatement)
  | FortuneTeller (target_indexes : TargetIndexes) (is_evil : Bool)
  | Gemcrafter (target_index : Nat)
  | Hunter (distance : Nat)
  | Jester (target_indexes : TargetIndexes) (evil_count : Nat)
  | Judge (target_index : Nat) (is_lying : Bool)
  | Knitter (adjacent_count : Nat)
  | Lover (evil_count : Nat)
  | Medium (target_index : Nat) (role : Role)
  | Oracle (target_indexes : TargetIndexes) (role : Role)
  | Scout (role : Option Role) (distance : Nat)
  | Slayer (target_index : Nat) (alignment : Alignment)
  | PlagueDoctor (corruption_index : Nat) (evil_index : Option Nat)
deriving DecidableEq, Repr

/-- `neighbor_indexes` from `roles.rs`: the two circular neighbours of
`position` at `offset`.  (At every call site `offset ≤ len` and
`len ≥ 1`, so `Nat` subtraction and `%` agree with the `usize`
arithmetic of the source.) -/
def neighbor_indexes (len position offset : Nat) : List Nat :=
  [(position + len - offset) % len, (position + offset) % len]

/-- `count_evil` from `roles.rs`. -/
def count_evil (roles : List Role) : Nat :=
  roles.countP fun role => role.alignment == Alignment.Evil

/-- `count_neighbor_evil` from `roles.rs`.  The indexes produced by
`neighbor_indexes` are in range, so `filterMap get?` performs the same
lookups as the panicking index in the source. -/
def count_neighbor_evil (true_roles : List Role) (position offset : Nat) : Nat :=
  count_evil ((neighbor_indexes true_roles.length position offset).filterMap
    fun i => true_roles.get? i)

/-- Auxiliary loop of `closest_evil_direction`: walk the given offsets
in order and report the side of the first Evil found. -/
def closest_evil_direction_loop (true_roles : List Role) (position : Nat) :
    List Nat → EnlightenedStatement
  | [] => EnlightenedStatement.Equidistant
  | offset :: rest =>
    match (neighbor_indexes true_roles.length position offset).filterMap
        (fun i => true_roles.get? i) with
    | [left, right] =>
      let left_evil := left.alignment == Alignment.Evil
      let right_evil := right.alignment == Alignment.Evil
      match left_evil, right_evil with
      | true, true => EnlightenedStatement.Equidistant
      | true, false => EnlightenedStatement.CounterClockwise
      | false, true => EnlightenedStatement.Clockwise
      | false, false => closest_evil_direction_loop true_roles position rest
    | _ => closest_evil_direction_loop true_roles position rest

/-- `closest_evil_direction` from `roles.rs`. -/
def closest_evil_direction (true_roles : List Role) (position : Nat) :
    EnlightenedStatement :=
  let max_offset := (true_roles.length + 1) / 2
  closest_evil_direction_loop true_roles position (List.range' 1 max_offset)

/-- `closest_evil_distance` from `roles.rs`. -/
def closest_evil_distance (true_roles : List Role) (position : Nat) : Nat :=
  let max_index := (true_roles.length + 1) / 2
  ((List.range' 1 max_index).find? fun i =>
    0 < count_neighbor_evil true_roles position i).getD true_roles.length

/-- `closest_corrupt_distance` from `roles.rs`. -/
def closest_corrupt_distance (corruptions : List Bool) (position : Nat) :
    Option Nat :=
  let max_distance := corruptions.length / 2 + 1
  (List.range' 1 max_distance).find? fun distance =>
    (neighbor_indexes corruptions.length position distance).any
      fun i => corruptions.getD i false

/-- `count_evil_pairs` from `roles.rs`: counts Evil pairs among
consecutive windows of length 2 (no wrap-around). -/
def count_evil_pairs (true_roles : List Role) : Nat :=
  match true_roles with
  | [] => 0
  | _ :: rest =>
    (true_roles.zip rest).countP fun w =>
      w.1.alignment == Alignment.Evil && w.2.alignment == Alignment.Evil

/-- `count_side_evils` from `roles.rs`.  The source slices
`true_roles[second_half_start..len - 1]`, which panics when the slice
bounds are inverted (exactly when `len ≤ 1`); `none` models that panic. -/
def count_side_evils (true_roles : List Role) : Option ArchitectStatement :=
  let len := true_roles.length
  let half := len / 2
  let second_half_start := if len % 2 = 0 then half else half + 1
  if len = 0 ∨ len - 1 < second_half_start then none
  else
    let right_evil_count := count_evil (true_roles.take half)
    let left_evil_count :=
      count_evil ((true_roles.drop second_half_start).take (len - 1 - second_half_start))
    some (if left_evil_count > right_evil_count then ArchitectStatement.Left
      else if left_evil_count < right_evil_count then ArchitectStatement.Right
      else ArchitectStatement.Equal)

/-- Short-circuiting `all` over seat indexes in the `Option` (panic)
monad: mirrors `iter().all(...)` where the body may panic. -/
def optAll (p : Nat → Option Bool) : List Nat → Option Bool
  | [] => some true
  | i :: rest =>
    match p i with
    | none => none
    | some false => some false
    | some true => optAll p rest

/-- Short-circuiting `any` over seat indexes in the `Option` (panic)
monad: mirrors `iter().any(...)` where the body may panic. -/
def optAny (p : Nat → Option Bool) : List Nat → Option Bool
  | [] => some false
  | i :: rest =>
    match p i with
    | none => none
    | some true => some true
    | some false => optAny p rest

/-- `can_produce_statement` from `roles.rs`.  Slice indexing that can
panic is modelled with `List.get?` binds; the `other => panic!` arms
(unsupported visible roles) are `none`. -/
def can_produce_statement (visible_role : Role) (is_lying : Bool)
    (true_roles disguised_roles : List Role) (corruptions : List Bool)
    (drunk_uncorruptions : List Nat) (position : Nat)
    (statement : RoleStatement) : Option Bool :=
  if is_lying then
    match visible_role with
    | .Alchemist =>
      match statement with
      | .Alchemist corrupt_count => some (corrupt_count != 0)
      | _ => some false
    | .Architect => do
      let side ← count_side_evils true_roles
      some (statement != RoleStatement.Architect side)
    | .Bard =>
      let closest_distance := closest_corrupt_distance corruptions position
      match statement with
      | .Bard distance =>
        match distance with
        | some stmt_dist =>
          some (stmt_dist != closest_distance.getD (stmt_dist + 1)
            && stmt_dist ≤ (true_roles.length + 1) / 2)
        | none => some closest_distance.isSome
      | _ => some false
    | .Bishop =>
      match statement with
      | .Bishop target_indexes =>
        optAll (fun i => (true_roles.get? i).map
          fun r => r.group == Group.Villager) (iterOnes target_indexes)
      | _ => some false
    | .Confessor => some (statement == RoleStatement.Confessor .IAmDizzy)
    | .Dreamer =>
      match statement with
      | .Dreamer target_index role => do
        let found_role ← true_roles.get? target_index
        some (found_role.alignment != Alignment.Evil || found_role != role)
      | _ => some false
    | .Druid =>
      match statement with
      | .Druid target_indexes role_option =>
        match role_option with
        | some role =>
          optAll (fun idx => (true_roles.get? idx).map
            fun r => r != role) (iterOnes target_indexes)
        | none =>
          optAny (fun idx => (true_roles.get? idx).map
            fun r => r.group == Group.Outcast) (iterOnes target_indexes)
      | _ => some false
    | .Empress =>
      match statement with
      | .Empress target_indexes =>
        optAll (fun i => (true_roles.get? i).map
          fun r => r.alignment != Alignment.Evil) (iterOnes target_indexes)
      | _ => some false
    | .Enlightened =>
      let true_response := closest_evil_direction true_roles position
      match statement with
      | .Enlightened stmt => some (stmt != true_response)
      | _ => some false
    | .FortuneTeller =>
      match statement with
      | .FortuneTeller target_indexes is_evil => do
        let any_evil ← optAny (fun i => (true_roles.get? i).map
          fun r => r.alignment == Alignment.Evil) (iterOnes target_indexes)
        some (any_evil != is_evil)
      | _ => some false
    | .Gemcrafter =>
      match statement with
      | .Gemcrafter target_index =>
        match true_roles.get? target_index with
        | some r => some (r.alignment == Alignment.Evil)
        | none => some false
      | _ => some false
    | .Hunter =>
      let index := closest_evil_distance true_roles position
      match statement with
      | .Hunter distance => some (distance != index)
      | _ => some false
    | .Jester =>
      match statement with
      | .Jester target_indexes evil_count => do
        let targets ← (iterOnes target_indexes).mapM fun i => true_roles.get? i
        some (evil_count != count_evil targets)
      | _ => some false
    | .Judge =>
      match statement with
      | .Judge target_index stmt_lying => do
        let rt ← true_roles.get? target_index
        let lies ← if rt.lying then some true else corruptions.get? target_index
        let accused ← if lies then
            (disguised_roles.get? target_index).map fun d => d != Role.Confessor
          else some false
        some (stmt_lying != accused)
      | _ => some false
    | .Knitter =>
      match statement with
      | .Knitter adjacent_count =>
        some (adjacent_count != count_evil_pairs true_roles)
      | _ => some false
    | .Lover =>
      let real_evil_count :=
        count_evil ((neighbor_indexes true_roles.length position 1).filterMap
          fun idx => true_roles.get? idx)
      match statement with
      | .Lover evil_count =>
        some (evil_count != real_evil_count && evil_count ≤ 2)
      | _ => some false
    | .Medium =>
      match statement with
      | .Medium target_index role =>
        if target_index < true_roles.length ∧ target_index < disguised_roles.length then
          some ((true_roles.getD target_index role != disguised_roles.getD target_index role)
            && role == disguised_roles.getD target_index role)
        else some false
      | _ => some false
    | .Oracle =>
      match statement with
      | .Oracle target_indexes _ =>
        optAll (fun i => (true_roles.get? i).map
          fun r => r.alignment != Alignment.Evil) (iterOnes target_indexes)
      | _ => some false
    | .Scout =>
      match statement with
      | .Scout role_option distance =>
        let evil_count := count_evil true_roles
        match role_option with
        | some role =>
          some (evil_count == 1
            || !(true_roles.enum.any fun p =>
                 p.2 == role && distance == closest_evil_distance true_roles p.1
                   && (true_roles.getD p.1 p.2).alignment == Alignment.Evil))
        | none => some (evil_count != 1)
      | _ => some false
    | .Slayer =>
      match statement with
      | .Slayer target_index alignment =>
        some (decide (target_index < true_roles.length)
          && alignment == Alignment.Good)
      | _ => some false
    | .PlagueDoctor =>
      match statement with
      | .PlagueDoctor corruption_index evil_index => do
        let is_corrupt ← corruptions.get? corruption_index
        match evil_index with
        | none => some (is_corrupt || corruption_index == position)
        | some evil_idx =>
          if is_corrupt then some false
          else (true_roles.get? evil_idx).map (fun r => r.alignment == Alignment.Good)
      | _ => some false
    | .Bombardier | .Wretch | .Knight =>
      some (statement == RoleStatement.NoStatement)
    | _ => none
  else
    match visible_role with
    | .Alchemist =>
      match statement with
      | .Alchemist corrupt_count => do
        let cured ← drunk_uncorruptions.get? position
        some (corrupt_count == cured)
      | _ => some false
    | .Architect => do
      let side ← count_side_evils true_roles
      some (statement == RoleStatement.Architect side)
    | .Bard =>
      let closest_distance := closest_corrupt_distance corruptions position
      match statement with
      | .Bard distance => some (distance == closest_distance)
      | _ => some false
    | .Bishop =>
      match statement with
      | .Bishop target_indexes => do
        let targets ← (iterOnes target_indexes).mapM fun i => true_roles.get? i
        let villager_count := targets.countP fun r => r.group == Group.Villager
        let minion_count := targets.countP fun r => r.group == Group.Minion
        let outcast_count := targets.countP fun r => r.group == Group.Outcast
        let other_count := targets.countP fun r => r.group == Group.Demon
        some (villager_count == 1 && minion_count == 1
          && outcast_count ≤ 1 && other_count == 0)
      | _ => some false
    | .Confessor => some (statement == RoleStatement.Confessor .IAmGood)
    | .Druid =>
      match statement with
      | .Druid target_indexes role_option =>
        match role_option with
        | some role =>
          optAny (fun idx => (true_roles.get? idx).map
            fun r => r == role) (iterOnes target_indexes)
        | none => do
          let found ← optAny (fun idx => (true_roles.get? idx).map
            fun r => r.group == Group.Outcast) (iterOnes target_indexes)
          some (!found)
      | _ => some false
    | .Enlightened =>
      some (statement
        == RoleStatement.Enlightened (closest_evil_direction true_roles position))
    | .Empress =>
      match statement with
      | .Empress target_indexes => do
        let targets ← (iterOnes target_indexes).mapM fun i => true_roles.get? i
        let evil_count := targets.countP fun r => r.alignment == Alignment.Evil
        let good_count := targets.countP fun r => r.alignment == Alignment.Good
        some (evil_count == 1 && good_count == 2)
      | _ => some false
    | .Dreamer =>
      match statement with
      | .Dreamer target_index role => do
        let found_role ← true_roles.get? target_index
        some (found_role.alignment != Alignment.Evil || found_role == role)
      | _ => some false
    | .FortuneTeller =>
      match statement with
      | .FortuneTeller target_indexes is_evil => do
        let any_evil ← optAny (fun i => (true_roles.get? i).map
          fun r => r.alignment == Alignment.Evil) (iterOnes target_indexes)
        some (any_evil == is_evil)
      | _ => some false
    | .Gemcrafter =>
      match statement with
      | .Gemcrafter target_index =>
        match true_roles.get? target_index with
        | some r => some (r.alignment == Alignment.Good)
        | none => some false
      | _ => some false
    | .Hunter =>
      let index := closest_evil_distance true_roles position
      match statement with
      | .Hunter distance => some (distance == index)
      | _ => some false
    | .Jester =>
      match statement with
      | .Jester target_indexes evil_count => do
        let targets ← (iterOnes target_indexes).mapM fun i => true_roles.get? i
        some (evil_count == count_evil targets)
      | _ => some false
    | .Judge =>
      match statement with
      | .Judge target_index stmt_lying => do
        let rt ← true_roles.get? target_index
        let lies ← if rt.lying then some true else corruptions.get? target_index
        let accused ← if lies then
            (disguised_roles.get? target_index).map fun d => d != Role.Confessor
          else some false
        some (stmt_lying == accused)
      | _ => some false
    | .Knitter =>
      match statement with
      | .Knitter adjacent_count =>
        some (adjacent_count == count_evil_pairs true_roles)
      | _ => some false
    | .Lover =>
      let evil_count := count_neighbor_evil true_roles position 1
      match statement with
      | .Lover c => some (c == evil_count)
      | _ => some false
    | .Medium =>
      match statement with
      | .Medium target_index role =>
        if target_index == position then some false
        else do
          let rt ← true_roles.get? target_index
          some (rt.alignment == Alignment.Good && role == rt)
      | _ => some false
    | .Oracle =>
      match statement with
      | .Oracle target_indexes role =>
        match iterOnes target_indexes with
        | first :: second :: _ => do
          let rf ← true_roles.get? first
          let rs ← true_roles.get? second
          some ((rf.alignment == Alignment.Good && rs == role)
            || (rs.alignment == Alignment.Good && rf == role))
        | _ => none
      | _ => some false
    | .Scout =>
      match statement with
      | .Scout role_option distance =>
        let evil_count := count_evil true_roles
        match role_option with
        | some role =>
          some (evil_count != 1
            && (true_roles.enum.any fun p =>
                 p.2 == role && distance == closest_evil_distance true_roles p.1
                   && (true_roles.getD p.1 p.2).alignment == Alignment.Evil))
        | none => some (evil_count == 1)
      | _ => some false
    | .Slayer =>
      match statement with
      | .Slayer target_index alignment =>
        match true_roles.get? target_index with
        | some r => some (alignment == r.alignment)
        | none => some false
      | _ => some false
    | .PlagueDoctor =>
      match statement with
      | .PlagueDoctor corruption_index evil_index => do
        let is_corrupt ← corruptions.get? corruption_index
        match evil_index with
        | none => some (!is_corrupt)
        | some evil_idx =>
          if !is_corrupt then some false
          else (true_roles.get? evil_idx).map (fun r => r.alignment == Alignment.Evil)
      | _ => some false
    | .Wretch | .Bombardier | .Knight =>
      some (statement == RoleStatement.NoStatement)
    | _ => none

/-- The role priority used by the sort at the top of
`execute_corruption` in `solver.rs`. -/
def corruption_priority (role : Role) : Nat :=
  match role with
  | .Pooka => 0
  | .Poisoner => 1
  | .PlagueDoctor => 2
  | _ => 3

/-- Ordered insertion by `(priority, index)`; since seat indexes are
distinct the comparator is a total order and the result coincides with
the source's `sort_by`. -/
def insert_by_priority (x : Nat × Role) : List (Nat × Role) → List (Nat × Role)
  | [] => [x]
  | y :: ys =>
    if corruption_priority x.2 < corruption_priority y.2
        ∨ (corruption_priority x.2 = corruption_priority y.2 ∧ x.1 ≤ y.1) then
      x :: y :: ys
    else y :: insert_by_priority x ys

/-- The `sort_by` on `roles_with_indices` in `execute_corruption`. -/
def sort_by_priority (l : List (Nat × Role)) : List (Nat × Role) :=
  l.foldr insert_by_priority []

/-- The poison-option lists contributed by one `(index, role)` entry in
the first loop of `execute_corruption` (`solver.rs`).  `none` models the
panic of `wretch_assign[n]` when the index is out of range. -/
def poison_options_for (len : Nat) (wretch_assign : List Role) :
    Nat × Role → Option (List (List Nat))
  | (i, Role.Pooka) => do
    let neighbors := neighbor_indexes len i 1
    let roles ← neighbors.mapM fun n => wretch_assign.get? n
    some (((neighbors.zip roles).filter fun p => p.2.group == Group.Villager).map
      fun p => [p.1])
  | (i, Role.Poisoner) => do
    let neighbors := neighbor_indexes len i 1
    let roles ← neighbors.mapM fun n => wretch_assign.get? n
    let eligible := ((neighbors.zip roles).filter
      fun p => p.2.group == Group.Villager).map fun p => p.1
    some (if eligible.isEmpty then [] else [eligible])
  | (_, Role.PlagueDoctor) =>
    let eligible := (wretch_assign.enum.filter
      fun p => p.2.group == Group.Villager).map fun p => p.1
    some (if eligible.isEmpty then [] else [eligible])
  | _ => some []

/-- The recursive `combine` helper of `execute_corruption`
(`solver.rs`): Cartesian product over the poison options, skipping
already-corrupted targets, and skipping an elector entirely when none of
its targets is fresh. -/
def combine (poison_options : List (List Nat)) (current : List Bool) :
    Option (List (List Bool)) :=
  match poison_options with
  | [] => some [current]
  | opt :: rest => do
    let flags ← opt.mapM fun target => (current.get? target).map fun b => (target, b)
    let valid := (flags.filter fun p => !p.2).map fun p => p.1
    if valid.isEmpty then combine rest current
    else do
      let results ← valid.mapM fun target => combine rest (current.set target true)
      some results.flatten

/-- `execute_corruption` from `solver.rs`. -/
def execute_corruption (true_roles wretch_assign : List Role) :
    Option (List (List Bool)) := do
  let len := true_roles.length
  let roles_with_indices := sort_by_priority true_roles.enum
  let option_lists ← roles_with_indices.mapM (poison_options_for len wretch_assign)
  combine option_lists.flatten (List.replicate len false)

/-- The inner clearing loop of `execute_uncorruption` (`solver.rs`):
walk the neighbour indexes in order, clearing each corrupted one and
counting the clears. -/
def clear_neighbors (mut_corruption : List Bool) (cleared : Nat) :
    List Nat → List Bool × Nat
  | [] => (mut_corruption, cleared)
  | neighbor :: rest =>
    if mut_corruption.getD neighbor false then
      clear_neighbors (mut_corruption.set neighbor false) (cleared + 1) rest
    else
      clear_neighbors mut_corruption cleared rest

/-- The neighbour indexes visited by one Alchemist in
`execute_uncorruption`: offsets 1 and 2, in source order. -/
def alchemist_neighbor_idxs (len i : Nat) : List Nat :=
  neighbor_indexes len i 1 ++ neighbor_indexes len i 2

/-- One iteration of the seat loop of `execute_uncorruption`
(`solver.rs`), mirroring the source's short-circuit order: the disguise
is inspected first, then the current corruption bit, then the true
role. -/
def uncorruption_step (true_roles disguised_roles : List Role) (len : Nat)
    (state : List Bool × List Nat) (i : Nat) : Option (List Bool × List Nat) := do
  let d ← disguised_roles.get? i
  if d != Role.Alchemist then some state
  else if state.1.getD i false then some state
  else do
    let t ← true_roles.get? i
    if t.lying then some state
    else
      let cleared := clear_neighbors state.1 0 (alchemist_neighbor_idxs len i)
      some (cleared.1, state.2.set i cleared.2)

/-- `execute_uncorruption` from `solver.rs`. -/
def execute_uncorruption (true_roles disguised_roles : List Role)
    (corruption : List Bool) : Option (List Bool × List Nat) :=
  let len := corruption.length
  (List.range len).foldlM (uncorruption_step true_roles disguised_roles len)
    (corruption, List.replicate len 0)

/-- `itertools`' `combinations(k)` as used by
`generate_role_combinations`: all `k`-element subsequences, in the
source order. -/
def combinations : Nat → List Role → List (List Role)
  | 0, _ => [[]]
  | _ + 1, [] => []
  | k + 1, x :: xs =>
    ((combinations k xs).map fun c => x :: c) ++ combinations (k + 1) xs

/-- `generate_role_combinations` from `solver.rs`. -/
def generate_role_combinations (deck : List Role)
    (villagers outcasts minions demons : Nat) :
    List (List Role) × List (List Role) × List (List Role) × List (List Role) :=
  let villager_roles := deck.filter fun r => r.group == Group.Villager
  let outcast_roles := deck.filter fun r => r.group == Group.Outcast
  let minion_roles := deck.filter fun r => r.group == Group.Minion
  let demon_roles := deck.filter fun r => r.group == Group.Demon
  (combinations villagers villager_roles, combinations outcasts outcast_roles,
    combinations minions minion_roles, combinations demons demon_roles)

/-- `generate_role_variations` from `solver.rs`: without a Counsellor
the four group combos are concatenated; with one, each present Villager
is replaced in turn by each Outcast not already in play. -/
def generate_role_variations (v_combo o_combo m_combo d_combo : List Role)
    (outcasts_not_in_play : List Role) (has_counsellor : Bool) :
    List (List Role) :=
  if !has_counsellor then
    [v_combo ++ o_combo ++ m_combo ++ d_combo]
  else
    v_combo.enum.flatMap fun p =>
      if p.2.group == Group.Villager then
        outcasts_not_in_play.map fun outcast =>
          v_combo.set p.1 outcast ++ o_combo ++ m_combo ++ d_combo
      else []

/-- `build_choices` from `solver.rs`: per-seat Wretch replacements and
disguise choices. -/
def build_choices (candidate deck_minions deck_non_evil deck_villagers_in_play
    deck_villager_not_in_play : List Role) :
    List (List Role) × List (List Role) :=
  let wretch_choices := candidate.map fun r =>
    if r == Role.Wretch then deck_minions else [r]
  let disguise_choices := candidate.map fun r =>
    if r.group == Group.Demon then deck_villager_not_in_play
    else if r.group == Group.Minion then deck_non_evil
    else if r == Role.DoppelGanger then deck_villagers_in_play
    else [r]
  (wretch_choices, disguise_choices)

/-- The Counsellor adjacency prune at the leaf of `permute_multiset`
(`solver.rs`): when the first Counsellor in the permutation has no
Outcast-group direct (circular) neighbour the permutation is dropped. -/
def counsellor_adjacency_ok (current : List Role) : Bool :=
  match current.findIdx? fun r => r == Role.Counsellor with
  | none => true
  | some counsellor_pos =>
    let len := current.length
    let left_pos := if counsellor_pos == 0 then len - 1 else counsellor_pos - 1
    let right_pos := if counsellor_pos == len - 1 then 0 else counsellor_pos + 1
    (current.getD left_pos Role.Counsellor).group == Group.Outcast
      || (current.getD right_pos Role.Counsellor).group == Group.Outcast

/-- `permute_multiset` from `solver.rs`, in accumulator-returning form:
the list of all seat sequences the source's callback would be invoked
on, in order.  `remaining = target_len - current.len`; the `counts` map
is a function, and `keys` enumerates its support (the source iterates a
`HashMap`'s keys, whose order is unspecified).  The `has_counsellor`
argument is taken and ignored exactly as in the source. -/
def permute_multiset (counts : Role → Nat) (keys : List Role)
    (current : List Role) (remaining : Nat) (has_counsellor : Bool) :
    List (List Role) :=
  match remaining with
  | 0 => if counsellor_adjacency_ok current then [current] else []
  | r + 1 =>
    keys.flatMap fun k =>
      let cnt := counts k
      if cnt == 0 then []
      else permute_multiset (fun k2 => if k2 == k then cnt - 1 else counts k2)
        keys (current ++ [k]) r has_counsellor

/-- `confirmed_roles_ok` from `solver.rs`. -/
def confirmed_roles_ok (candidate : List Role)
    (confirmed_roles : List (Option Role)) : Bool :=
  (candidate.zip confirmed_roles).all fun p =>
    p.2 == none || p.2 == some p.1

/-- Run an `Option Bool` producer over a list of choices, stopping at
the first `some true` (the source's early `return true`) and
propagating `none` (panic); yields `some false` when every choice
fails. -/
def tryEach (f : α → Option Bool) : List α → Option Bool
  | [] => some false
  | x :: xs =>
    match f x with
    | none => none
    | some true => some true
    | some false => tryEach f xs

/-- `assign_disguises_and_check` from `solver.rs`: depth-first search
over per-seat Wretch and disguise choices, pruning on the required
visible role, invoking `on_complete` on each full assignment and
stopping at the first success.  The three lists are walked in seat
order; `none` models the `visible_roles[pos]` panic when that list is
too short. -/
def assign_disguises_and_check (wretch_choices disguise_choices : List (List Role))
    (visible_roles : List (Option Role)) (wretch_assign disguise_assign : List Role)
    (on_complete : List Role → List Role → Option Bool) : Option Bool :=
  match wretch_choices, disguise_choices with
  | [], [] => on_complete wretch_assign disguise_assign
  | wc :: wrest, dc :: drest =>
    match visible_roles with
    | [] => none
    | req_vis :: vrest =>
      tryEach (fun w_choice =>
        tryEach (fun d_choice =>
          if (match req_vis with
              | some req => req != d_choice
              | none => false) then some false
          else
            assign_disguises_and_check wrest drest vrest
              (wretch_assign ++ [w_choice]) (disguise_assign ++ [d_choice])
              on_complete) dc) wc
  | _, _ => none

/-- The per-seat statement check inside `statements_match`
(`solver.rs`): walk the zipped `(true_role, vis_role, is_corrupt)`
triples with their seat index; a seat with `NoStatement` observed is
skipped, a failing seat rejects this corruption bitmap (`some false`),
and `none` models the panics of `observed_statements[idx]` and of
`can_produce_statement`. -/
def check_seats (triples : List (Role × Role × Bool)) (idx : Nat)
    (wretch_assign disguise_assign : List Role) (corruption : List Bool)
    (uncorruptions : List Nat) (observed_statements : List RoleStatement) :
    Option Bool :=
  match triples with
  | [] => some true
  | (true_role, vis_role, is_corrupt) :: rest =>
    match observed_statements.get? idx with
    | none => none
    | some obs =>
      if obs == RoleStatement.NoStatement then
        check_seats rest (idx + 1) wretch_assign disguise_assign corruption
          uncorruptions observed_statements
      else
        let lying := true_role.lying || is_corrupt
        match can_produce_statement vis_role lying wretch_assign disguise_assign
            corruption uncorruptions idx obs with
        | none => none
        | some false => some false
        | some true =>
          check_seats rest (idx + 1) wretch_assign disguise_assign corruption
            uncorruptions observed_statements

/-- `statements_match` from `solver.rs`: a candidate passes when some
corruption bitmap (after Alchemist clearing) satisfies every observed
statement.  The `verbose` flag only controls diagnostics in the source
and is ignored. -/
def statements_match (candidate wretch_assign disguise_assign : List Role)
    (observed_statements : List RoleStatement) (verbose : Bool) : Option Bool := do
  let corrupt_permutations ← execute_corruption candidate wretch_assign
  tryEach (fun pre_corruption => do
      let (corruption, uncorruptions) ←
        execute_uncorruption candidate disguise_assign pre_corruption
      check_seats (candidate.zip (disguise_assign.zip corruption)) 0
        wretch_assign disguise_assign corruption uncorruptions
        observed_statements)
    corrupt_permutations

/-- Concatenating flat-map in the panic monad: the result list of a
loop whose body may panic. -/
def optFlatMap (f : α → Option (List β)) : List α → Option (List β)
  | [] => some []
  | x :: xs => do
    let ys ← f x
    let zs ← optFlatMap f xs
    some (ys ++ zs)

/-- `brute_force_solve` from `solver.rs`.  `none` models a panic (the
`assert_eq!` on input lengths, or any panic reachable from the nested
search); otherwise the returned list contains every candidate true-role
sequence that survives all checks, in deterministic order (the source's
rayon parallelism concatenates the same per-combo blocks). -/
def brute_force_solve (deck : List Role) (visible_roles : List (Option Role))
    (confirmed_roles : List (Option Role))
    (observed_statements : List RoleStatement)
    (villagers outcasts minions demons : Nat) (verbose : Bool) :
    Option (List (List Role)) :=
  if visible_roles.length != observed_statements.length then none
  else
    let n := visible_roles.length
    let combos := generate_role_combinations deck villagers outcasts minions demons
    let villager_combos := combos.1
    let outcast_combos := combos.2.1
    let minion_combos := combos.2.2.1
    let demon_combos := combos.2.2.2
    let deck_minions := deck.filter fun r => r.group == Group.Minion
    let deck_non_evil := deck.filter fun r => r.alignment != Alignment.Evil
    optFlatMap (fun v_combo =>
      let deck_villager_not_in_play := deck.filter fun r =>
        r.group == Group.Villager && !(v_combo.contains r)
      optFlatMap (fun o_combo =>
        let outcasts_not_in_play := deck.filter fun r =>
          r.group == Group.Outcast && !(o_combo.contains r)
        optFlatMap (fun m_combo =>
          let has_counsellor := m_combo.any fun r => r == Role.Counsellor
          optFlatMap (fun d_combo =>
            optFlatMap (fun combined =>
              let deck_villagers_in_play := combined.filter fun r =>
                r.group == Group.Villager && !(v_combo.contains r)
              optFlatMap (fun candidate =>
                if !(confirmed_roles_ok candidate confirmed_roles) then some []
                else
                  let choices := build_choices candidate deck_minions deck_non_evil
                    deck_villagers_in_play deck_villager_not_in_play
                  match assign_disguises_and_check choices.1 choices.2
                      visible_roles [] []
                      (fun wretch_assign disguise_assign =>
                        statements_match candidate wretch_assign disguise_assign
                          observed_statements verbose) with
                  | none => none
                  | some true => some [candidate]
                  | some false => some [])
                (permute_multiset (fun r => combined.count r) combined.dedup []
                  n has_counsellor))
              (generate_role_variations v_combo o_combo m_combo d_combo
                outcasts_not_in_play has_counsellor))
            demon_combos)
          minion_combos)
        outcast_combos)
      villager_combos

/-! ## Spec-side definitions

These two definitions follow the specification's words (not the
source); each is compared against the corresponding source-derived
definition by a claim below. -/

/-- The count the specification ascribes to the Knitter: the number of
adjacent Evil pairs with adjacency taken modulo `N`, i.e. including the
pair formed by seat `N - 1` and seat `0`. -/
def spec_count_evil_pairs_circular (true_roles : List Role) : Nat :=
  (List.range true_roles.length).countP fun i =>
    decide ((∃ r, true_roles.get? i = some r ∧ r.alignment = Alignment.Evil)
      ∧ (∃ r, true_roles.get? ((i + 1) % true_roles.length) = some r
          ∧ r.alignment = Alignment.Evil))

/-- The set of Villager roles present in a play multiset, as the
specification's DoppelGanger disguise rule describes it ("all Villager
roles currently in play"). -/
def spec_villagers_in_play (combined : List Role) : List Role :=
  combined.filter fun r => r.group == Group.Villager

/-! ## C4: Knitter -/

/-- C4 (counterexample): on `[Minion, Baker, Minion]` the circular pair
count of the claim is `1` (the wrap-around pair seat 2 / seat 0), yet
the truthful Knitter predicate rejects the statement `k = 1`, because
the code counts only consecutive windows without wrap-around. -/
theorem knitter_circular_count_refuted :
    spec_count_evil_pairs_circular [Role.Minion, Role.Baker, Role.Minion] = 1
    ∧ can_produce_statement Role.Knitter false
        [Role.Minion, Role.Baker, Role.Minion] [] [] [] 0
        (RoleStatement.Knitter 1) = some false := by
  constructor
  · decide
  · rfl

/-- C4 (amended): for every fully-resolved world and seat whose visible
role is Knitter with statement `k`, the truthful predicate holds iff
`k` equals the number of adjacent Evil pairs among consecutive seats in
linear order (pairs `(i, i+1)` for `i < N - 1`, the wrap-around pair
excluded), and the lying predicate holds iff `k` differs from that
count. -/
theorem knitter_matches_linear_pair_count (true_roles disguised_roles : List Role)
    (corruptions : List Bool) (uncorruptions : List Nat) (position k : Nat) :
    can_produce_statement Role.Knitter false true_roles disguised_roles
        corruptions uncorruptions position (RoleStatement.Knitter k)
      = some (k == count_evil_pairs true_roles)
    ∧ can_produce_statement Role.Knitter true true_roles disguised_roles
        corruptions uncorruptions position (RoleStatement.Knitter k)
      = some (k != count_evil_pairs true_roles) := by
  constructor <;> rfl

/-! ## C6: silent roles -/

/-- C6 (counterexample): the claim lists Poet among the silent roles for
which `can_produce_statement` "returns a boolean"; in the code Poet
falls into the `other => panic!` arm, even for `NoStatement`. -/
theorem silent_poet_panics :
    can_produce_statement Role.Poet false [] [] [] [] 0
      RoleStatement.NoStatement = none
    ∧ can_produce_statement Role.Poet true [] [] [] [] 0
      RoleStatement.NoStatement = none := by
  constructor <;> rfl

/-- C6 (amended): for the silent visible roles the code actually
handles — Knight, Bombardier and Wretch — every fully-resolved world,
speaker position and lying flag give `can_produce_statement` the value
`true` exactly on `NoStatement` (Poet, Baker and Witness are instead
unsupported and panic). -/
theorem silent_roles_accept_only_no_statement (v : Role)
    (hv : v = Role.Knight ∨ v = Role.Bombardier ∨ v = Role.Wretch)
    (is_lying : Bool) (true_roles disguised_roles : List Role)
    (corruptions : List Bool) (uncorruptions : List Nat) (position : Nat)
    (statement : RoleStatement) :
    can_produce_statement v is_lying true_roles disguised_roles corruptions
      uncorruptions position statement
      = some (statement == RoleStatement.NoStatement) := by
  rcases hv with rfl | rfl | rfl <;> cases is_lying <;> rfl

/-- Witness for the amended C6 theorem at a concrete input. -/
theorem silent_roles_accept_only_no_statement_witness :
    (Role.Knight = Role.Knight ∨ Role.Knight = Role.Bombardier
      ∨ Role.Knight = Role.Wretch)
    ∧ can_produce_statement Role.Knight false [Role.Knight] [Role.Knight]
        [false] [0] 0 RoleStatement.NoStatement
      = some (RoleStatement.NoStatement == RoleStatement.NoStatement) :=
  ⟨Or.inl rfl,
    silent_roles_accept_only_no_statement Role.Knight (Or.inl rfl) false
      [Role.Knight] [Role.Knight] [false] [0] 0 RoleStatement.NoStatement⟩

/-! ## C7: closest_evil_distance -/

/-- The specification's notion of "at least one of the two neighbours
of `position` at offset `d` is Evil-aligned". -/
def HasEvilNeighborAt (true_roles : List Role) (position d : Nat) : Prop :=
  ∃ j ∈ neighbor_indexes true_roles.length position d,
    ∃ r, true_roles.get? j = some r ∧ r.alignment = Alignment.Evil

/-- `find?` over `range' a m` yields the least satisfying value. -/
theorem range'_find?_min {p : Nat → Bool} {a m x : Nat}
    (h : (List.range' a m).find? p = some x) :
    p x = true ∧ a ≤ x ∧ x < a + m ∧ ∀ y, a ≤ y → y < x → p y = false := by
  rw [List.find?_range'_eq_some] at h
  obtain ⟨h1, h2, h3⟩ := h
  rw [List.mem_range'_1] at h2
  exact ⟨h1, h2.1, h2.2, fun y hy1 hy2 => by
    have := h3 y hy1 hy2
    simpa using this⟩

/-- `count_neighbor_evil` is positive exactly when some neighbour at
that offset is Evil. -/
theorem count_neighbor_evil_pos_iff (true_roles : List Role) (position d : Nat) :
    0 < count_neighbor_evil true_roles position d
      ↔ HasEvilNeighborAt true_roles position d := by
  unfold count_neighbor_evil count_evil HasEvilNeighborAt
  rw [List.countP_pos_iff]
  constructor
  · rintro ⟨r, hr, hev⟩
    obtain ⟨j, hj, hget⟩ := List.mem_filterMap.mp hr
    exact ⟨j, hj, r, hget, by simpa using hev⟩
  · rintro ⟨j, hj, r, hget, hev⟩
    exact ⟨r, List.mem_filterMap.mpr ⟨j, hj, hget⟩, by simp [hev]⟩

/-- C7: `closest_evil_distance` returns the smallest offset `d` with
`1 ≤ d ≤ ⌊(N+1)/2⌋` at which one of the two circular neighbours is
Evil-aligned, and returns `N` when no such offset exists (in particular
when no Evil role is in play at all). -/
theorem closest_evil_distance_correct (true_roles : List Role) (position : Nat)
    (hne : true_roles ≠ []) (hpos : position < true_roles.length) :
    ((∃ e, 1 ≤ e ∧ e ≤ (true_roles.length + 1) / 2
        ∧ HasEvilNeighborAt true_roles position e) →
      (1 ≤ closest_evil_distance true_roles position
        ∧ closest_evil_distance true_roles position ≤ (true_roles.length + 1) / 2
        ∧ HasEvilNeighborAt true_roles position
            (closest_evil_distance true_roles position)
        ∧ ∀ e, 1 ≤ e → e ≤ (true_roles.length + 1) / 2 →
            HasEvilNeighborAt true_roles position e →
            closest_evil_distance true_roles position ≤ e))
    ∧ ((∀ e, 1 ≤ e → e ≤ (true_roles.length + 1) / 2 →
          ¬ HasEvilNeighborAt true_roles position e) →
        closest_evil_distance true_roles position = true_roles.length) := by
  have hdef : closest_evil_distance true_roles position
      = ((List.range' 1 ((true_roles.length + 1) / 2)).find?
          (fun i => decide (0 < count_neighbor_evil true_roles position i))).getD
        true_roles.length := rfl
  constructor
  · rintro ⟨e, he1, he2, hev⟩
    have hpe : decide (0 < count_neighbor_evil true_roles position e) = true := by
      simp only [decide_eq_true_eq]
      exact (count_neighbor_evil_pos_iff true_roles position e).mpr hev
    rcases hfind : (List.range' 1 ((true_roles.length + 1) / 2)).find?
        (fun i => decide (0 < count_neighbor_evil true_roles position i)) with _ | x
    · exfalso
      have hnone := List.find?_eq_none.mp hfind e
        (List.mem_range'_1.mpr ⟨he1, by omega⟩)
      rw [hpe] at hnone
      exact hnone rfl
    · obtain ⟨hpx, hx1, hx2, hxmin⟩ := range'_find?_min hfind
      rw [hdef, hfind]
      simp only [Option.getD_some]
      have hxev : HasEvilNeighborAt true_roles position x :=
        (count_neighbor_evil_pos_iff true_roles position x).mp (by simpa using hpx)
      refine ⟨hx1, by omega, hxev, fun d hd1 hd2 hdev => ?_⟩
      by_contra hlt
      push_neg at hlt
      have hfalse := hxmin d hd1 hlt
      have hpd : decide (0 < count_neighbor_evil true_roles position d) = true := by
        simp only [decide_eq_true_eq]
        exact (count_neighbor_evil_pos_iff true_roles position d).mpr hdev
      rw [hpd] at hfalse
      exact absurd hfalse (by simp)
  · intro hno
    rcases hfind : (List.range' 1 ((true_roles.length + 1) / 2)).find?
        (fun i => decide (0 < count_neighbor_evil true_roles position i)) with _ | x
    · rw [hdef, hfind]
      rfl
    · exfalso
      obtain ⟨hpx, hx1, hx2, _⟩ := range'_find?_min hfind
      exact hno x hx1 (by omega)
        ((count_neighbor_evil_pos_iff true_roles position x).mp (by simpa using hpx))

/-- Witness for C7 at a concrete input: `[Baker, Minion, Baker]`,
position 0, where the closest Evil is at offset 1. -/
theorem closest_evil_distance_correct_witness :
    ([Role.Baker, Role.Minion, Role.Baker] ≠ ([] : List Role))
    ∧ (0 < [Role.Baker, Role.Minion, Role.Baker].length)
    ∧ closest_evil_distance [Role.Baker, Role.Minion, Role.Baker] 0 = 1 := by
  refine ⟨by decide, by decide, ?_⟩
  have h := (closest_evil_distance_correct [Role.Baker, Role.Minion, Role.Baker] 0
    (by decide) (by decide)).1 ⟨1, by decide, by decide, 1, by decide, Role.Minion,
      by decide, by decide⟩
  have h2 := h.2.2.2 1 (by decide) (by decide)
    ⟨1, by decide, Role.Minion, by decide, by decide⟩
  omega

/-! ## C8: Alchemist clearing -/

theorem getD_set_eq_ite {α : Type} (l : List α) (n j : Nat) (a d : α) :
    (l.set n a).getD j d = if n = j ∧ n < l.length then a else l.getD j d := by
  rw [List.getD_eq_getElem?_getD, List.getD_eq_getElem?_getD, List.getElem?_set]
  by_cases h1 : n = j
  · subst h1
    by_cases h2 : n < l.length
    · simp [h2]
    · simp [h2, List.getElem?_eq_none (Nat.le_of_not_lt h2)]
  · simp [h1]

theorem getD_true_lt {l : List Bool} {j : Nat} (h : l.getD j false = true) :
    j < l.length := by
  by_contra hc
  push_neg at hc
  rw [List.getD_eq_default _ _ hc] at h
  cases h

/-- Setting a zero entry adds the new value to the sum. -/
theorem sum_set_of_getD_zero (l : List Nat) (i v : Nat) (hi : i < l.length)
    (h0 : l.getD i 0 = 0) : (l.set i v).sum = l.sum + v := by
  induction l generalizing i with
  | nil => simp at hi
  | cons x xs ih =>
    cases i with
    | zero =>
      simp only [List.getD_cons_zero] at h0
      simp [List.set, h0]
      omega
    | succ i =>
      simp only [List.getD_cons_succ] at h0
      simp only [List.length_cons, Nat.succ_lt_succ_iff] at hi
      simp [List.set, ih i hi h0]
      omega

/-- Clearing a set bit decrements the true-count by one. -/
theorem countP_set_false {l : List Bool} {n : Nat} (h : l.getD n false = true) :
    (l.set n false).countP (fun b => b) + 1 = l.countP (fun b => b) := by
  have hlt : n < l.length := getD_true_lt h
  have hget : l[n] = true := by
    rw [List.getD_eq_getElem?_getD, List.getElem?_eq_getElem hlt] at h
    simpa using h
  rw [List.countP_set _ _ _ _ hlt, hget]
  have : 0 < l.countP (fun b => b) := by
    rw [List.countP_pos_iff]
    exact ⟨true, by rw [← hget]; exact List.getElem_mem hlt, rfl⟩
  simp
  omega

theorem clear_neighbors_length (idxs : List Nat) :
    ∀ (mc : List Bool) (c : Nat), (clear_neighbors mc c idxs).1.length = mc.length := by
  induction idxs with
  | nil => intro mc c; rfl
  | cons n rest ih =>
    intro mc c
    unfold clear_neighbors
    by_cases h : mc.getD n false = true
    · simp only [h, if_true]
      rw [ih]
      exact List.length_set mc n false
    · simp only [Bool.not_eq_true] at h
      rw [h, if_neg (by simp)]
      exact ih mc c

theorem clear_neighbors_mono (idxs : List Nat) :
    ∀ (mc : List Bool) (c : Nat) (j : Nat),
      (clear_neighbors mc c idxs).1.getD j false = true →
      mc.getD j false = true := by
  induction idxs with
  | nil => intro mc c j h; exact h
  | cons n rest ih =>
    intro mc c j h
    unfold clear_neighbors at h
    by_cases hn : mc.getD n false = true
    · simp only [hn, if_true] at h
      have := ih _ _ _ h
      rw [getD_set_eq_ite] at this
      by_cases he : n = j ∧ n < mc.length
      · rw [if_pos he] at this; cases this
      · rwa [if_neg he] at this
    · simp only [Bool.not_eq_true] at hn
      rw [hn, if_neg (by simp)] at h
      exact ih _ _ _ h

theorem clear_neighbors_clears (idxs : List Nat) :
    ∀ (mc : List Bool) (c : Nat) (nb : Nat), nb ∈ idxs →
      (clear_neighbors mc c idxs).1.getD nb false = false := by
  induction idxs with
  | nil => intro mc c nb h; cases h
  | cons n rest ih =>
    intro mc c nb hmem
    unfold clear_neighbors
    by_cases hn : mc.getD n false = true
    · simp only [hn, if_true]
      rcases List.mem_cons.mp hmem with rfl | hrest
      · have hset : (mc.set nb false).getD nb false = false := by
          rw [getD_set_eq_ite]
          rw [if_pos ⟨rfl, getD_true_lt hn⟩]
        cases hres : (clear_neighbors (mc.set nb false) (c + 1) rest).1.getD nb false
        · rfl
        · have := clear_neighbors_mono rest _ _ _ hres
          rw [hset] at this; cases this
      · exact ih _ _ _ hrest
    · simp only [Bool.not_eq_true] at hn
      rw [hn, if_neg (by simp)]
      rcases List.mem_cons.mp hmem with rfl | hrest
      · cases hres : (clear_neighbors mc c rest).1.getD nb false
        · rfl
        · have := clear_neighbors_mono rest _ _ _ hres
          rw [hn] at this; cases this
      · exact ih _ _ _ hrest

theorem clear_neighbors_changes_mem (idxs : List Nat) :
    ∀ (mc : List Bool) (c : Nat) (j : Nat),
      (clear_neighbors mc c idxs).1.getD j false ≠ mc.getD j false → j ∈ idxs := by
  induction idxs with
  | nil => intro mc c j h; exact absurd rfl h
  | cons n rest ih =>
    intro mc c j h
    unfold clear_neighbors at h
    by_cases hn : mc.getD n false = true
    · simp only [hn, if_true] at h
      by_cases hj : j = n
      · exact List.mem_cons.mpr (Or.inl hj)
      · have hj2 : (clear_neighbors (mc.set n false) (c + 1) rest).1.getD j false
            ≠ (mc.set n false).getD j false := by
          intro heq
          rw [heq, getD_set_eq_ite, if_neg] at h
          · exact h rfl
          · rintro ⟨rfl, _⟩; exact hj rfl
        exact List.mem_cons.mpr (Or.inr (ih _ _ _ hj2))
    · simp only [Bool.not_eq_true] at hn
      rw [hn, if_neg (by simp)] at h
      exact List.mem_cons.mpr (Or.inr (ih _ _ _ h))

theorem clear_neighbors_count (idxs : List Nat) :
    ∀ (mc : List Bool) (c : Nat),
      mc.countP (fun b => b) + c
        = (clear_neighbors mc c idxs).1.countP (fun b => b)
          + (clear_neighbors mc c idxs).2 := by
  induction idxs with
  | nil => intro mc c; rfl
  | cons n rest ih =>
    intro mc c
    unfold clear_neighbors
    by_cases hn : mc.getD n false = true
    · simp only [hn, if_true]
      rw [← ih]
      have := countP_set_false hn
      omega
    · simp only [Bool.not_eq_true] at hn
      rw [hn, if_neg (by simp)]
      exact ih mc c

/-- When the eligibility conditions hold, `uncorruption_step` takes the
clearing branch. -/
theorem uncorruption_step_eligible {tr dr : List Role} {len : Nat}
    {s : List Bool × List Nat} {i : Nat} {t : Role}
    (hd : dr.get? i = some Role.Alchemist) (hc : s.1.getD i false = false)
    (ht : tr.get? i = some t) (hl : t.lying = false) :
    uncorruption_step tr dr len s i
      = some ((clear_neighbors s.1 0 (alchemist_neighbor_idxs len i)).1,
          s.2.set i (clear_neighbors s.1 0 (alchemist_neighbor_idxs len i)).2) := by
  unfold uncorruption_step
  rw [hd]
  rw [List.get?_eq_getElem?] at ht
  rw [List.getD_eq_getElem?_getD] at hc
  simp [hc, ht, hl]

/-- Case analysis on a successful `uncorruption_step`: either the state
is unchanged, or the seat was an eligible Alchemist and its neighbours
were cleared. -/
theorem uncorruption_step_cases {tr dr : List Role} {len : Nat}
    {s s' : List Bool × List Nat} {i : Nat}
    (h : uncorruption_step tr dr len s i = some s') :
    s' = s
    ∨ (dr.get? i = some Role.Alchemist ∧ s.1.getD i false = false
        ∧ (∃ t, tr.get? i = some t ∧ t.lying = false)
        ∧ s' = ((clear_neighbors s.1 0 (alchemist_neighbor_idxs len i)).1,
            s.2.set i (clear_neighbors s.1 0 (alchemist_neighbor_idxs len i)).2)) := by
  unfold uncorruption_step at h
  cases hd : dr.get? i with
  | none => rw [hd] at h; cases h
  | some d =>
    rw [hd] at h
    replace h : (if (d != Role.Alchemist) = true then some s
        else if s.1.getD i false = true then some s
        else do
          let t ← tr.get? i
          if t.lying = true then some s
          else some ((clear_neighbors s.1 0 (alchemist_neighbor_idxs len i)).1,
              s.2.set i (clear_neighbors s.1 0 (alchemist_neighbor_idxs len i)).2))
        = some s' := h
    by_cases hda : (d != Role.Alchemist) = true
    · rw [if_pos hda] at h
      exact Or.inl (Option.some_inj.mp h).symm
    · rw [if_neg hda] at h
      have hdA : d = Role.Alchemist := by simpa using hda
      subst hdA
      by_cases hcor : s.1.getD i false = true
      · rw [if_pos hcor] at h
        exact Or.inl (Option.some_inj.mp h).symm
      · rw [if_neg hcor] at h
        rw [Bool.not_eq_true] at hcor
        cases ht : tr.get? i with
        | none => rw [ht] at h; cases h
        | some t =>
          rw [ht] at h
          replace h : (if t.lying = true then some s
              else some ((clear_neighbors s.1 0 (alchemist_neighbor_idxs len i)).1,
                s.2.set i (clear_neighbors s.1 0 (alchemist_neighbor_idxs len i)).2))
              = some s' := h
          by_cases hl : t.lying = true
          · rw [if_pos hl] at h
            exact Or.inl (Option.some_inj.mp h).symm
          · rw [if_neg hl] at h
            rw [Bool.not_eq_true] at hl
            exact Or.inr ⟨rfl, hcor, ⟨t, rfl, hl⟩, (Option.some_inj.mp h).symm⟩

theorem uncorruption_step_mono {tr dr : List Role} {len : Nat}
    {s s' : List Bool × List Nat} {i : Nat}
    (h : uncorruption_step tr dr len s i = some s') (j : Nat)
    (hj : s'.1.getD j false = true) : s.1.getD j false = true := by
  rcases uncorruption_step_cases h with rfl | ⟨_, _, _, rfl⟩
  · exact hj
  · exact clear_neighbors_mono _ _ _ _ hj

theorem uncorruption_step_lengths {tr dr : List Role} {len : Nat}
    {s s' : List Bool × List Nat} {i : Nat}
    (h : uncorruption_step tr dr len s i = some s') :
    s'.1.length = s.1.length ∧ s'.2.length = s.2.length := by
  rcases uncorruption_step_cases h with rfl | ⟨_, _, _, rfl⟩
  · exact ⟨rfl, rfl⟩
  · exact ⟨clear_neighbors_length _ _ _, List.length_set _ _ _⟩

/-- Monotonicity of the whole seat fold: bits are never set. -/
theorem uncorruption_fold_mono {tr dr : List Role} {len : Nat} :
    ∀ (idxs : List Nat) (s0 s1 : List Bool × List Nat),
      List.foldlM (uncorruption_step tr dr len) s0 idxs = some s1 →
      ∀ j, s1.1.getD j false = true → s0.1.getD j false = true := by
  intro idxs
  induction idxs with
  | nil => intro s0 s1 h j hj; cases h; exact hj
  | cons a rest ih =>
    intro s0 s1 h j hj
    rw [List.foldlM_cons] at h
    cases hmid : uncorruption_step tr dr len s0 a with
    | none => rw [hmid] at h; cases h
    | some s_mid =>
      rw [hmid] at h
      replace h : List.foldlM (uncorruption_step tr dr len) s_mid rest = some s1 := h
      exact uncorruption_step_mono hmid j (ih s_mid s1 h j hj)

theorem uncorruption_fold_lengths {tr dr : List Role} {len : Nat} :
    ∀ (idxs : List Nat) (s0 s1 : List Bool × List Nat),
      List.foldlM (uncorruption_step tr dr len) s0 idxs = some s1 →
      s1.1.length = s0.1.length ∧ s1.2.length = s0.2.length := by
  intro idxs
  induction idxs with
  | nil => intro s0 s1 h; cases h; exact ⟨rfl, rfl⟩
  | cons a rest ih =>
    intro s0 s1 h
    rw [List.foldlM_cons] at h
    cases hmid : uncorruption_step tr dr len s0 a with
    | none => rw [hmid] at h; cases h
    | some s_mid =>
      rw [hmid] at h
      replace h : List.foldlM (uncorruption_step tr dr len) s_mid rest = some s1 := h
      obtain ⟨h1, h2⟩ := uncorruption_step_lengths hmid
      obtain ⟨h3, h4⟩ := ih s_mid s1 h
      exact ⟨h3.trans h1, h4.trans h2⟩

/-- Every input-eligible Alchemist seat ends with all its offset-1 and
offset-2 neighbours uncorrupted. -/
theorem uncorruption_fold_clears {tr dr : List Role} {len : Nat} :
    ∀ (idxs : List Nat) (s0 s1 : List Bool × List Nat),
      List.foldlM (uncorruption_step tr dr len) s0 idxs = some s1 →
      ∀ i ∈ idxs, dr.get? i = some Role.Alchemist →
        s0.1.getD i false = false →
        (∃ t, tr.get? i = some t ∧ t.lying = false) →
        ∀ j ∈ alchemist_neighbor_idxs len i, s1.1.getD j false = false := by
  intro idxs
  induction idxs with
  | nil => intro s0 s1 h i hi; cases hi
  | cons a rest ih =>
    intro s0 s1 h i hi hd hc ⟨t, ht, hl⟩ j hj
    rw [List.foldlM_cons] at h
    cases hmid : uncorruption_step tr dr len s0 a with
    | none => rw [hmid] at h; cases h
    | some s_mid =>
      rw [hmid] at h
      replace h : List.foldlM (uncorruption_step tr dr len) s_mid rest = some s1 := h
      rcases List.mem_cons.mp hi with rfl | hirest
      · -- the eligible seat is processed first; afterwards its
        -- neighbours are clear and stay clear
        rw [uncorruption_step_eligible hd hc ht hl] at hmid
        have hmideq : s_mid
            = ((clear_neighbors s0.1 0 (alchemist_neighbor_idxs len i)).1,
               s0.2.set i (clear_neighbors s0.1 0 (alchemist_neighbor_idxs len i)).2) :=
          (Option.some_inj.mp hmid).symm
        have hclear : s_mid.1.getD j false = false := by
          rw [hmideq]
          exact clear_neighbors_clears _ _ _ _ hj
        cases hres : s1.1.getD j false
        · rfl
        · have := uncorruption_fold_mono rest s_mid s1 h j hres
          rw [hclear] at this; cases this
      · have hc_mid : s_mid.1.getD i false = false := by
          cases hres : s_mid.1.getD i false
          · rfl
          · have := uncorruption_step_mono hmid i hres
            rw [hc] at this; cases this
        exact ih s_mid s1 h i hirest hd hc_mid ⟨t, ht, hl⟩ j hj

/-- Every changed corruption bit lies at offset 1 or 2 from a seat that
is Alchemist-disguised, truthful, and uncorrupted in the final bitmap. -/
theorem uncorruption_fold_changes {tr dr : List Role} {len : Nat} :
    ∀ (idxs : List Nat) (s0 s1 : List Bool × List Nat),
      List.foldlM (uncorruption_step tr dr len) s0 idxs = some s1 →
      ∀ j, s1.1.getD j false ≠ s0.1.getD j false →
        ∃ i ∈ idxs, dr.get? i = some Role.Alchemist
          ∧ (∃ t, tr.get? i = some t ∧ t.lying = false)
          ∧ s1.1.getD i false = false
          ∧ j ∈ alchemist_neighbor_idxs len i := by
  intro idxs
  induction idxs with
  | nil => intro s0 s1 h j hj; cases h; exact absurd rfl hj
  | cons a rest ih =>
    intro s0 s1 h j hj
    rw [List.foldlM_cons] at h
    cases hmid : uncorruption_step tr dr len s0 a with
    | none => rw [hmid] at h; cases h
    | some s_mid =>
      rw [hmid] at h
      replace h : List.foldlM (uncorruption_step tr dr len) s_mid rest = some s1 := h
      by_cases hstep : s_mid.1.getD j false = s0.1.getD j false
      · have : s1.1.getD j false ≠ s_mid.1.getD j false := by
          rw [hstep]; exact hj
        obtain ⟨i, hi, rest_props⟩ := ih s_mid s1 h j this
        exact ⟨i, List.mem_cons.mpr (Or.inr hi), rest_props⟩
      · rcases uncorruption_step_cases hmid with heq | ⟨hd, hc, hte, heq⟩
        · rw [heq] at hstep; exact absurd rfl hstep
        · refine ⟨a, List.mem_cons.mpr (Or.inl rfl), hd, hte, ?_, ?_⟩
          · have hfalse_mid : s_mid.1.getD a false = false := by
              cases hres : s_mid.1.getD a false
              · rfl
              · rw [heq] at hres
                have := clear_neighbors_mono _ _ _ _ hres
                rw [hc] at this; cases this
            cases hres : s1.1.getD a false
            · rfl
            · have := uncorruption_fold_mono rest s_mid s1 h a hres
              rw [hfalse_mid] at this; cases this
          · rw [heq] at hstep
            exact clear_neighbors_changes_mem _ _ _ _ hstep

/-- Every changed cleared-count entry belongs to a truthful
Alchemist-disguised seat that is uncorrupted in the final bitmap. -/
theorem uncorruption_fold_cleared_char {tr dr : List Role} {len : Nat} :
    ∀ (idxs : List Nat) (s0 s1 : List Bool × List Nat),
      List.foldlM (uncorruption_step tr dr len) s0 idxs = some s1 →
      ∀ j, s1.2.getD j 0 ≠ s0.2.getD j 0 →
        j ∈ idxs ∧ dr.get? j = some Role.Alchemist
          ∧ (∃ t, tr.get? j = some t ∧ t.lying = false)
          ∧ s1.1.getD j false = false := by
  intro idxs
  induction idxs with
  | nil => intro s0 s1 h j hj; cases h; exact absurd rfl hj
  | cons a rest ih =>
    intro s0 s1 h j hj
    rw [List.foldlM_cons] at h
    cases hmid : uncorruption_step tr dr len s0 a with
    | none => rw [hmid] at h; cases h
    | some s_mid =>
      rw [hmid] at h
      replace h : List.foldlM (uncorruption_step tr dr len) s_mid rest = some s1 := h
      by_cases hstep : s_mid.2.getD j 0 = s0.2.getD j 0
      · have : s1.2.getD j 0 ≠ s_mid.2.getD j 0 := by
          rw [hstep]; exact hj
        obtain ⟨hji, props⟩ := ih s_mid s1 h j this
        exact ⟨List.mem_cons.mpr (Or.inr hji), props⟩
      · rcases uncorruption_step_cases hmid with heq | ⟨hd, hc, hte, heq⟩
        · rw [heq] at hstep; exact absurd rfl hstep
        · have hja : j = a := by
            by_contra hne
            rw [heq] at hstep
            simp only at hstep
            rw [getD_set_eq_ite] at hstep
            rw [if_neg] at hstep
            · exact hstep rfl
            · rintro ⟨rfl, _⟩; exact hne rfl
          subst hja
          have hfalse_mid : s_mid.1.getD j false = false := by
            cases hres : s_mid.1.getD j false
            · rfl
            · rw [heq] at hres
              have := clear_neighbors_mono _ _ _ _ hres
              rw [hc] at this; cases this
          refine ⟨List.mem_cons.mpr (Or.inl rfl), hd, hte, ?_⟩
          cases hres : s1.1.getD j false
          · rfl
          · have := uncorruption_fold_mono rest s_mid s1 h j hres
            rw [hfalse_mid] at this; cases this

/-- The number of set corruption bits is conserved: every clear is
counted exactly once in the cleared counters. -/
theorem uncorruption_fold_count {tr dr : List Role} {len : Nat} :
    ∀ (idxs : List Nat) (s0 s1 : List Bool × List Nat),
      List.foldlM (uncorruption_step tr dr len) s0 idxs = some s1 →
      idxs.Nodup → (∀ i ∈ idxs, i < s0.2.length ∧ s0.2.getD i 0 = 0) →
      s0.1.countP (fun b => b) + s0.2.sum
        = s1.1.countP (fun b => b) + s1.2.sum := by
  intro idxs
  induction idxs with
  | nil => intro s0 s1 h _ _; cases h; rfl
  | cons a rest ih =>
    intro s0 s1 h hnodup hzero
    rw [List.foldlM_cons] at h
    cases hmid : uncorruption_step tr dr len s0 a with
    | none => rw [hmid] at h; cases h
    | some s_mid =>
      rw [hmid] at h
      replace h : List.foldlM (uncorruption_step tr dr len) s_mid rest = some s1 := h
      have hrest_nodup : rest.Nodup := (List.nodup_cons.mp hnodup).2
      have hanotin : a ∉ rest := (List.nodup_cons.mp hnodup).1
      have hstep_count : s0.1.countP (fun b => b) + s0.2.sum
          = s_mid.1.countP (fun b => b) + s_mid.2.sum := by
        rcases uncorruption_step_cases hmid with rfl | ⟨_, _, _, heq⟩
        · rfl
        · obtain ⟨ha_lt, ha_zero⟩ := hzero a (List.mem_cons.mpr (Or.inl rfl))
          rw [heq]
          simp only
          rw [sum_set_of_getD_zero _ _ _ ha_lt ha_zero]
          have := clear_neighbors_count (alchemist_neighbor_idxs len a) s0.1 0
          omega
      have hrest_zero : ∀ i ∈ rest, i < s_mid.2.length ∧ s_mid.2.getD i 0 = 0 := by
        intro i hi
        obtain ⟨hlt, hz⟩ := hzero i (List.mem_cons.mpr (Or.inr hi))
        constructor
        · rw [(uncorruption_step_lengths hmid).2]; exact hlt
        · rcases uncorruption_step_cases hmid with rfl | ⟨_, _, _, heq⟩
          · exact hz
          · rw [heq]
            simp only
            rw [getD_set_eq_ite, if_neg]
            · exact hz
            · rintro ⟨rfl, _⟩; exact hanotin hi
      rw [hstep_count]
      exact ih s_mid s1 h hrest_nodup hrest_zero

/-- Whether the true role at seat `i` speaks truthfully (does not lie
by default); false when the seat does not exist. -/
def not_lying_at (tr : List Role) (i : Nat) : Bool :=
  match tr.get? i with
  | some t => !t.lying
  | none => false

/-- C8's eligibility condition read off the function's inputs: seat `i`
is disguised as Alchemist, is not itself corrupted (in the input
bitmap), and its speaker is truthful. -/
def claim_c8_eligible (tr dr : List Role) (corr : List Bool) (i : Nat) : Prop :=
  dr.get? i = some Role.Alchemist ∧ corr.get? i = some false
    ∧ not_lying_at tr i = true

instance (tr dr : List Role) (corr : List Bool) (i : Nat) :
    Decidable (claim_c8_eligible tr dr corr i) := by
  unfold claim_c8_eligible
  infer_instance

/-- Claim C8 as stated, at one input: for each eligible seat every
corrupted neighbour at offsets 1 and 2 is cleared, `cleared[i]` counts
the corruptions so cleared, and no other seat's corruption bit is
changed. -/
def claim_c8 (tr dr : List Role) (corr : List Bool) : Prop :=
  ∀ out cleared, execute_uncorruption tr dr corr = some (out, cleared) →
    (∀ i, i < corr.length → claim_c8_eligible tr dr corr i →
      ∀ j ∈ alchemist_neighbor_idxs corr.length i, out.getD j false = false)
    ∧ (∀ i, i < corr.length → claim_c8_eligible tr dr corr i →
      cleared.getD i 0
        = ((alchemist_neighbor_idxs corr.length i).dedup.filter
            (fun j => corr.getD j false)).length)
    ∧ (∀ j, j < corr.length → out.getD j false ≠ corr.getD j false →
      ∃ i, i < corr.length ∧ claim_c8_eligible tr dr corr i
        ∧ j ∈ alchemist_neighbor_idxs corr.length i)

/-- C8 (counterexample): with Alchemists at seats 0 and 1, corruption
at seats 1 and 3 (of 7), seat 0 clears seat 1, after which the
sequential pass lets seat 1 clear seat 3 — although seat 3 is not a
neighbour of any seat that was eligible in the input bitmap, refuting
"no other seat's corruption bit is changed". -/
theorem uncorruption_claim_refuted :
    ¬ claim_c8
        [Role.Alchemist, Role.Alchemist, Role.Baker, Role.Baker, Role.Baker,
          Role.Baker, Role.Baker]
        [Role.Alchemist, Role.Alchemist, Role.Baker, Role.Baker, Role.Baker,
          Role.Baker, Role.Baker]
        [false, true, false, true, false, false, false] := by
  intro hclaim
  have heval : execute_uncorruption
      [Role.Alchemist, Role.Alchemist, Role.Baker, Role.Baker, Role.Baker,
        Role.Baker, Role.Baker]
      [Role.Alchemist, Role.Alchemist, Role.Baker, Role.Baker, Role.Baker,
        Role.Baker, Role.Baker]
      [false, true, false, true, false, false, false]
      = some ([false, false, false, false, false, false, false],
          [1, 1, 0, 0, 0, 0, 0]) := by decide
  have h3 := (hclaim _ _ heval).2.2 3 (by decide) (by decide)
  obtain ⟨i, hi, helig, hmem⟩ := h3
  have hi7 : i < 7 := by simpa using hi
  interval_cases i <;> revert helig hmem <;> decide

/-- C8 (amended): the clearing pass processes seats in increasing order
against the evolving bitmap, so: bits are only ever cleared; every
input-corrupted neighbour (offsets 1 and 2) of a seat that is
Alchemist-disguised, truthful and uncorrupted in the *input* bitmap is
cleared in the output; every changed bit lies at offset 1 or 2 from an
Alchemist-disguised truthful seat that is uncorrupted in the *output*
bitmap (a seat whose own corruption an earlier Alchemist cleared also
clears its neighbours); a seat with a non-zero cleared count is such a
seat; and the cleared counts sum to exactly the number of bits
cleared. -/
theorem execute_uncorruption_properties (tr dr : List Role) (corr out : List Bool)
    (cleared : List Nat)
    (h : execute_uncorruption tr dr corr = some (out, cleared)) :
    (∀ j, out.getD j false = true → corr.getD j false = true)
    ∧ (∀ i, i < corr.length → dr.get? i = some Role.Alchemist →
        corr.getD i false = false →
        (∃ t, tr.get? i = some t ∧ t.lying = false) →
        ∀ j ∈ alchemist_neighbor_idxs corr.length i, out.getD j false = false)
    ∧ (∀ j, out.getD j false ≠ corr.getD j false →
        ∃ i, i < corr.length ∧ dr.get? i = some Role.Alchemist
          ∧ (∃ t, tr.get? i = some t ∧ t.lying = false)
          ∧ out.getD i false = false ∧ j ∈ alchemist_neighbor_idxs corr.length i)
    ∧ (∀ j, cleared.getD j 0 ≠ 0 →
        dr.get? j = some Role.Alchemist
          ∧ (∃ t, tr.get? j = some t ∧ t.lying = false)
          ∧ out.getD j false = false)
    ∧ corr.countP (fun b => b) = out.countP (fun b => b) + cleared.sum := by
  replace h : List.foldlM (uncorruption_step tr dr corr.length)
      ((corr, List.replicate corr.length 0) : List Bool × List Nat)
      (List.range corr.length) = some (out, cleared) := h
  have hrep : ∀ (j : Nat), (List.replicate corr.length (0 : Nat)).getD j 0 = 0 := by
    intro j
    rw [List.getD_eq_getElem?_getD, List.getElem?_replicate]
    split <;> rfl
  refine ⟨?_, ?_, ?_, ?_, ?_⟩
  · intro j hj
    exact uncorruption_fold_mono (List.range corr.length) _ _ h j hj
  · intro i hi hd hc hte j hj
    exact uncorruption_fold_clears (List.range corr.length) _ _ h i
      (List.mem_range.mpr hi) hd hc hte j hj
  · intro j hj
    obtain ⟨i, hi, props⟩ :=
      uncorruption_fold_changes (List.range corr.length) _ _ h j hj
    exact ⟨i, List.mem_range.mp hi, props⟩
  · intro j hj
    have hj' : cleared.getD j 0
        ≠ ((corr, List.replicate corr.length 0) : List Bool × List Nat).2.getD j 0 := by
      simpa [hrep j] using hj
    obtain ⟨_, props⟩ :=
      uncorruption_fold_cleared_char (List.range corr.length) _ _ h j hj'
    exact props
  · have := uncorruption_fold_count (List.range corr.length) _ _ h
      (List.nodup_range _)
      (fun i hi => ⟨by simpa using List.mem_range.mp hi, hrep i⟩)
    simpa using this

/-- Witness for the amended C8 theorem at a concrete input. -/
theorem execute_uncorruption_properties_witness :
    execute_uncorruption
        [Role.Alchemist, Role.Alchemist, Role.Baker, Role.Baker, Role.Baker,
          Role.Baker, Role.Baker]
        [Role.Alchemist, Role.Alchemist, Role.Baker, Role.Baker, Role.Baker,
          Role.Baker, Role.Baker]
        [false, true, false, true, false, false, false]
      = some ([false, false, false, false, false, false, false],
          [1, 1, 0, 0, 0, 0, 0])
    ∧ [false, true, false, true, false, false, false].countP (fun b => b)
      = [false, false, false, false, false, false, false].countP (fun b => b)
        + [1, 1, 0, 0, 0, 0, 0].sum :=
  ⟨by decide,
    (execute_uncorruption_properties
      [Role.Alchemist, Role.Alchemist, Role.Baker, Role.Baker, Role.Baker,
        Role.Baker, Role.Baker]
      [Role.Alchemist, Role.Alchemist, Role.Baker, Role.Baker, Role.Baker,
        Role.Baker, Role.Baker]
      [false, true, false, true, false, false, false]
      [false, false, false, false, false, false, false]
      [1, 1, 0, 0, 0, 0, 0] (by decide)).2.2.2.2⟩

/-! ## C9 and C10: the corruption engine -/

theorem option_mapM_mem {α β : Type} {f : α → Option β} :
    ∀ {l : List α} {ys : List β}, l.mapM f = some ys →
      ∀ {y : β}, y ∈ ys → ∃ x ∈ l, f x = some y := by
  intro l
  induction l with
  | nil =>
    intro ys h y hy
    replace h : (some [] : Option (List β)) = some ys := h
    cases Option.some_inj.mp h
    cases hy
  | cons a rest ih =>
    intro ys h y hy
    rw [List.mapM_cons] at h
    cases hfa : f a with
    | none => rw [hfa] at h; cases h
    | some b =>
      rw [hfa] at h
      cases hrest : rest.mapM f with
      | none => rw [hrest] at h; cases h
      | some bs =>
        rw [hrest] at h
        replace h : (some (b :: bs) : Option (List β)) = some ys := h
        cases Option.some_inj.mp h
        rcases List.mem_cons.mp hy with rfl | hmem
        · exact ⟨a, List.mem_cons.mpr (Or.inl rfl), hfa⟩
        · obtain ⟨x, hx, hfx⟩ := ih hrest hmem
          exact ⟨x, List.mem_cons.mpr (Or.inr hx), hfx⟩

theorem option_mapM_zip {α β : Type} {f : α → Option β} :
    ∀ {l : List α} {ys : List β}, l.mapM f = some ys →
      ∀ p ∈ l.zip ys, f p.1 = some p.2 := by
  intro l
  induction l with
  | nil => intro ys h p hp; cases hp
  | cons a rest ih =>
    intro ys h p hp
    rw [List.mapM_cons] at h
    cases hfa : f a with
    | none => rw [hfa] at h; cases h
    | some b =>
      rw [hfa] at h
      cases hrest : rest.mapM f with
      | none => rw [hrest] at h; cases h
      | some bs =>
        rw [hrest] at h
        replace h : (some (b :: bs) : Option (List β)) = some ys := h
        cases Option.some_inj.mp h
        rcases List.mem_cons.mp hp with rfl | hmem
        · exact hfa
        · exact ih hrest p hmem

theorem option_mapM_total {α β : Type} {f : α → Option β} :
    ∀ {l : List α}, (∀ x ∈ l, (f x).isSome) → ∃ ys, l.mapM f = some ys := by
  intro l
  induction l with
  | nil => intro _; exact ⟨[], rfl⟩
  | cons a rest ih =>
    intro hall
    obtain ⟨b, hb⟩ := Option.isSome_iff_exists.mp
      (hall a (List.mem_cons.mpr (Or.inl rfl)))
    obtain ⟨bs, hbs⟩ := ih fun x hx => hall x (List.mem_cons.mpr (Or.inr hx))
    refine ⟨b :: bs, ?_⟩
    rw [List.mapM_cons, hb, hbs]
    rfl

theorem mem_insert_by_priority {x y : Nat × Role} :
    ∀ {l : List (Nat × Role)}, y ∈ insert_by_priority x l → y = x ∨ y ∈ l := by
  intro l
  induction l with
  | nil =>
    intro h
    rcases List.mem_cons.mp h with rfl | h
    · exact Or.inl rfl
    · cases h
  | cons a rest ih =>
    intro h
    unfold insert_by_priority at h
    by_cases hc : corruption_priority x.2 < corruption_priority a.2
        ∨ (corruption_priority x.2 = corruption_priority a.2 ∧ x.1 ≤ a.1)
    · rw [if_pos hc] at h
      rcases List.mem_cons.mp h with rfl | h
      · exact Or.inl rfl
      · exact Or.inr h
    · rw [if_neg hc] at h
      rcases List.mem_cons.mp h with rfl | h
      · exact Or.inr (List.mem_cons.mpr (Or.inl rfl))
      · rcases ih h with h' | h'
        · exact Or.inl h'
        · exact Or.inr (List.mem_cons.mpr (Or.inr h'))

theorem mem_sort_by_priority {y : Nat × Role} :
    ∀ {l : List (Nat × Role)}, y ∈ sort_by_priority l → y ∈ l := by
  intro l
  induction l with
  | nil => intro h; cases h
  | cons a rest ih =>
    intro h
    rcases mem_insert_by_priority h with rfl | h'
    · exact List.mem_cons.mpr (Or.inl rfl)
    · exact List.mem_cons.mpr (Or.inr (ih h'))

theorem getD_replicate_false {n j : Nat} :
    (List.replicate n false).getD j false = false := by
  rw [List.getD_eq_getElem?_getD, List.getElem?_replicate]
  split <;> rfl

/-- Every target offered by any poison-option list resolves, through
the Wretch assignment, to a Villager-group role. -/
theorem poison_options_for_villager {len : Nat} {wa : List Role}
    {p : Nat × Role} {ls : List (List Nat)}
    (h : poison_options_for len wa p = some ls) :
    ∀ l ∈ ls, ∀ t ∈ l, ∃ r, wa.get? t = some r ∧ r.group = Group.Villager := by
  obtain ⟨i, role⟩ := p
  cases role
  case Pooka =>
    simp only [poison_options_for] at h
    cases hm : (neighbor_indexes len i 1).mapM (fun n => wa.get? n) with
    | none => rw [hm] at h; cases h
    | some roles =>
      rw [hm] at h
      replace h : (some ((((neighbor_indexes len i 1).zip roles).filter
          fun p => p.2.group == Group.Villager).map fun p => [p.1])
          : Option (List (List Nat))) = some ls := h
      cases Option.some_inj.mp h
      intro l hl t ht
      obtain ⟨pr, hpr, rfl⟩ := List.mem_map.mp hl
      obtain ⟨hprz, hprv⟩ := List.mem_filter.mp hpr
      rcases List.mem_cons.mp ht with rfl | hf
      · exact ⟨pr.2, option_mapM_zip hm pr hprz, by simpa using hprv⟩
      · cases hf
  case Poisoner =>
    simp only [poison_options_for] at h
    cases hm : (neighbor_indexes len i 1).mapM (fun n => wa.get? n) with
    | none => rw [hm] at h; cases h
    | some roles =>
      rw [hm] at h
      replace h : (some (if ((((neighbor_indexes len i 1).zip roles).filter
            fun p => p.2.group == Group.Villager).map fun p => p.1).isEmpty
          then []
          else [(((neighbor_indexes len i 1).zip roles).filter
            fun p => p.2.group == Group.Villager).map fun p => p.1])
          : Option (List (List Nat))) = some ls := h
      cases Option.some_inj.mp h
      intro l hl t ht
      split at hl
      · cases hl
      · rcases List.mem_cons.mp hl with rfl | hf
        · obtain ⟨pr, hpr, rfl⟩ := List.mem_map.mp ht
          obtain ⟨hprz, hprv⟩ := List.mem_filter.mp hpr
          exact ⟨pr.2, option_mapM_zip hm pr hprz, by simpa using hprv⟩
        · cases hf
  case PlagueDoctor =>
    simp only [poison_options_for] at h
    replace h : (some (if ((wa.enum.filter
          fun p => p.2.group == Group.Villager).map fun p => p.1).isEmpty
        then []
        else [(wa.enum.filter
          fun p => p.2.group == Group.Villager).map fun p => p.1])
        : Option (List (List Nat))) = some ls := h
    cases Option.some_inj.mp h
    intro l hl t ht
    split at hl
    · cases hl
    · rcases List.mem_cons.mp hl with rfl | hf
      · obtain ⟨pr, hpr, rfl⟩ := List.mem_map.mp ht
        obtain ⟨hprz, hprv⟩ := List.mem_filter.mp hpr
        refine ⟨pr.2, ?_, by simpa using hprv⟩
        rw [List.get?_eq_getElem?]
        exact List.mk_mem_enum_iff_getElem?.mp hprz
      · cases hf
  all_goals
    replace h : (some [] : Option (List (List Nat))) = some ls := h
    cases Option.some_inj.mp h
    intro l hl
    cases hl

theorem get?_some_lt {α : Type} {l : List α} {n : Nat} {a : α}
    (h : l.get? n = some a) : n < l.length := by
  rw [List.get?_eq_getElem?] at h
  exact (List.getElem?_eq_some_iff.mp h).1

theorem get?_isSome_of_lt {α : Type} {l : List α} {n : Nat}
    (h : n < l.length) : (l.get? n).isSome := by
  rw [List.get?_eq_getElem?, List.getElem?_eq_getElem h]
  rfl

theorem option_mapM_length {α β : Type} {f : α → Option β} :
    ∀ {l : List α} {ys : List β}, l.mapM f = some ys → ys.length = l.length := by
  intro l
  induction l with
  | nil =>
    intro ys h
    replace h : (some [] : Option (List β)) = some ys := h
    cases Option.some_inj.mp h
    rfl
  | cons a rest ih =>
    intro ys h
    rw [List.mapM_cons] at h
    cases hfa : f a with
    | none => rw [hfa] at h; cases h
    | some b =>
      rw [hfa] at h
      cases hrest : rest.mapM f with
      | none => rw [hrest] at h; cases h
      | some bs =>
        rw [hrest] at h
        replace h : (some (b :: bs) : Option (List β)) = some ys := h
        cases Option.some_inj.mp h
        simp [ih hrest]

/-- Every set bit in any bitmap produced by `combine` comes either from
the initial bitmap or from one of the poison-option target lists. -/
theorem combine_bits :
    ∀ (opts : List (List Nat)) (cur : List Bool) (res : List (List Bool)),
      combine opts cur = some res → ∀ bm ∈ res, ∀ j, bm.getD j false = true →
        cur.getD j false = true ∨ ∃ l ∈ opts, j ∈ l := by
  intro opts
  induction opts with
  | nil =>
    intro cur res h bm hbm j hj
    replace h : (some [cur] : Option (List (List Bool))) = some res := h
    cases Option.some_inj.mp h
    rcases List.mem_cons.mp hbm with rfl | hf
    · exact Or.inl hj
    · cases hf
  | cons opt rest ih =>
    intro cur res h bm hbm j hj
    simp only [combine] at h
    cases hflags : opt.mapM (fun target => (cur.get? target).map fun b => (target, b)) with
    | none => rw [hflags] at h; cases h
    | some flags =>
      rw [hflags] at h
      replace h : (if (((flags.filter fun p => !p.2).map fun p => p.1).isEmpty) = true
          then combine rest cur
          else do
            let results ← ((flags.filter fun p => !p.2).map fun p => p.1).mapM
              fun target => combine rest (cur.set target true)
            some results.flatten) = some res := h
      split at h
      · rcases ih cur res h bm hbm j hj with hl | ⟨l, hlmem, hjl⟩
        · exact Or.inl hl
        · exact Or.inr ⟨l, List.mem_cons.mpr (Or.inr hlmem), hjl⟩
      · cases hres : ((flags.filter fun p => !p.2).map fun p => p.1).mapM
            (fun target => combine rest (cur.set target true)) with
        | none => rw [hres] at h; cases h
        | some results =>
          rw [hres] at h
          replace h : (some results.flatten : Option (List (List Bool))) = some res := h
          cases Option.some_inj.mp h
          obtain ⟨res_t, hrt_mem, hbm_t⟩ := List.mem_flatten.mp hbm
          obtain ⟨t, ht_mem, hcomb⟩ := option_mapM_mem hres hrt_mem
          obtain ⟨pt, hpt_filter, hpt_eq⟩ := List.mem_map.mp ht_mem
          obtain ⟨x, hx_opt, hx_eq⟩ :=
            option_mapM_mem hflags (List.mem_filter.mp hpt_filter).1
          have hx : pt.1 = x := by
            cases hcx : cur.get? x with
            | none => rw [hcx] at hx_eq; cases hx_eq
            | some b =>
              rw [hcx] at hx_eq
              replace hx_eq : ((x, b) : Nat × Bool) = pt := Option.some_inj.mp hx_eq
              rw [← hx_eq]
          rcases ih (cur.set t true) res_t hcomb bm hbm_t j hj with hset | ⟨l, hl, hjl⟩
          · rw [getD_set_eq_ite] at hset
            by_cases hje : t = j ∧ t < cur.length
            · refine Or.inr ⟨opt, List.mem_cons.mpr (Or.inl rfl), ?_⟩
              rw [← hje.1, ← hpt_eq, hx]
              exact hx_opt
            · rw [if_neg hje] at hset
              exact Or.inl hset
          · exact Or.inr ⟨l, List.mem_cons.mpr (Or.inr hl), hjl⟩

/-- `combine` always returns at least one bitmap. -/
theorem combine_ne_nil :
    ∀ (opts : List (List Nat)) (cur : List Bool) (res : List (List Bool)),
      combine opts cur = some res → res ≠ [] := by
  intro opts
  induction opts with
  | nil =>
    intro cur res h
    replace h : (some [cur] : Option (List (List Bool))) = some res := h
    cases Option.some_inj.mp h
    simp
  | cons opt rest ih =>
    intro cur res h
    simp only [combine] at h
    cases hflags : opt.mapM (fun target => (cur.get? target).map fun b => (target, b)) with
    | none => rw [hflags] at h; cases h
    | some flags =>
      rw [hflags] at h
      replace h : (if (((flags.filter fun p => !p.2).map fun p => p.1).isEmpty) = true
          then combine rest cur
          else do
            let results ← ((flags.filter fun p => !p.2).map fun p => p.1).mapM
              fun target => combine rest (cur.set target true)
            some results.flatten) = some res := h
      split at h
      · exact ih cur res h
      · rename_i hne
        cases hres : ((flags.filter fun p => !p.2).map fun p => p.1).mapM
            (fun target => combine rest (cur.set target true)) with
        | none => rw [hres] at h; cases h
        | some results =>
          rw [hres] at h
          replace h : (some results.flatten : Option (List (List Bool))) = some res := h
          cases Option.some_inj.mp h
          intro hflat
          have hall := List.flatten_eq_nil_iff.mp hflat
          have hlen := option_mapM_length hres
          have hvne : ((flags.filter fun p => !p.2).map fun p => p.1) ≠ [] := by
            intro hemp
            rw [hemp] at hne
            exact hne rfl
          cases hresults : results with
          | nil =>
            rw [hresults] at hlen
            exact hvne (List.length_eq_zero.mp hlen.symm)
          | cons r0 rrest =>
            have hr0 : r0 ∈ results := by rw [hresults]; exact List.mem_cons_self _ _
            obtain ⟨t, _, hcomb⟩ := option_mapM_mem hres hr0
            exact ih _ _ hcomb (hall r0 hr0)

/-- `combine` succeeds whenever every target is in range. -/
theorem combine_total :
    ∀ (opts : List (List Nat)) (cur : List Bool),
      (∀ l ∈ opts, ∀ t ∈ l, t < cur.length) →
      ∃ res, combine opts cur = some res := by
  intro opts
  induction opts with
  | nil => intro cur _; exact ⟨[cur], rfl⟩
  | cons opt rest ih =>
    intro cur hok
    obtain ⟨flags, hflags⟩ : ∃ flags,
        opt.mapM (fun target => (cur.get? target).map fun b => (target, b))
          = some flags := by
      apply option_mapM_total
      intro t ht
      have := get?_isSome_of_lt (l := cur)
        (hok opt (List.mem_cons.mpr (Or.inl rfl)) t ht)
      cases hc : cur.get? t with
      | none => rw [hc] at this; cases this
      | some b => rfl
    by_cases hemp : (((flags.filter fun p => !p.2).map fun p => p.1).isEmpty) = true
    · obtain ⟨res, hres⟩ := ih cur
        (fun l hl => hok l (List.mem_cons.mpr (Or.inr hl)))
      refine ⟨res, ?_⟩
      simp only [combine]
      rw [hflags]
      replace hres : (if (((flags.filter fun p => !p.2).map fun p => p.1).isEmpty) = true
          then combine rest cur
          else do
            let results ← ((flags.filter fun p => !p.2).map fun p => p.1).mapM
              fun target => combine rest (cur.set target true)
            some results.flatten) = some res := by
        rw [if_pos hemp]
        exact hres
      exact hres
    · obtain ⟨results, hresults⟩ : ∃ results,
          ((flags.filter fun p => !p.2).map fun p => p.1).mapM
            (fun target => combine rest (cur.set target true)) = some results := by
        apply option_mapM_total
        intro t _
        obtain ⟨res_t, hres_t⟩ := ih (cur.set t true) (fun l hl t' ht' => by
          rw [List.length_set]
          exact hok l (List.mem_cons.mpr (Or.inr hl)) t' ht')
        rw [hres_t]
        rfl
      refine ⟨results.flatten, ?_⟩
      simp only [combine]
      rw [hflags]
      replace goal : (if (((flags.filter fun p => !p.2).map fun p => p.1).isEmpty) = true
          then combine rest cur
          else do
            let results ← ((flags.filter fun p => !p.2).map fun p => p.1).mapM
              fun target => combine rest (cur.set target true)
            some results.flatten) = some results.flatten := by
        rw [if_neg hemp, hresults]
        rfl
      exact goal

/-- Bitmaps produced by `combine` keep the initial length. -/
theorem combine_length :
    ∀ (opts : List (List Nat)) (cur : List Bool) (res : List (List Bool)),
      combine opts cur = some res → ∀ bm ∈ res, bm.length = cur.length := by
  intro opts
  induction opts with
  | nil =>
    intro cur res h bm hbm
    replace h : (some [cur] : Option (List (List Bool))) = some res := h
    cases Option.some_inj.mp h
    rcases List.mem_cons.mp hbm with rfl | hf
    · rfl
    · cases hf
  | cons opt rest ih =>
    intro cur res h bm hbm
    simp only [combine] at h
    cases hflags : opt.mapM (fun target => (cur.get? target).map fun b => (target, b)) with
    | none => rw [hflags] at h; cases h
    | some flags =>
      rw [hflags] at h
      replace h : (if (((flags.filter fun p => !p.2).map fun p => p.1).isEmpty) = true
          then combine rest cur
          else do
            let results ← ((flags.filter fun p => !p.2).map fun p => p.1).mapM
              fun target => combine rest (cur.set target true)
            some results.flatten) = some res := h
      split at h
      · exact ih cur res h bm hbm
      · cases hres : ((flags.filter fun p => !p.2).map fun p => p.1).mapM
            (fun target => combine rest (cur.set target true)) with
        | none => rw [hres] at h; cases h
        | some results =>
          rw [hres] at h
          replace h : (some results.flatten : Option (List (List Bool))) = some res := h
          cases Option.some_inj.mp h
          obtain ⟨res_t, hrt_mem, hbm_t⟩ := List.mem_flatten.mp hbm
          obtain ⟨t, _, hcomb⟩ := option_mapM_mem hres hrt_mem
          rw [ih _ _ hcomb bm hbm_t]
          exact List.length_set cur t true

/-- `poison_options_for` succeeds whenever the Wretch assignment covers
the table. -/
theorem poison_options_for_total {len : Nat} {wa : List Role} (i : Nat)
    (role : Role) (hi : i < len) (hlen : wa.length = len) :
    (poison_options_for len wa (i, role)).isSome := by
  have hnb : ∀ n ∈ neighbor_indexes len i 1, (wa.get? n).isSome := by
    intro n hn
    apply get?_isSome_of_lt
    rw [hlen]
    rcases List.mem_cons.mp hn with rfl | hn'
    · exact Nat.mod_lt _ (by omega)
    · rcases List.mem_cons.mp hn' with rfl | hf
      · exact Nat.mod_lt _ (by omega)
      · cases hf
  cases role
  case Pooka =>
    obtain ⟨roles, hroles⟩ := option_mapM_total hnb
    simp only [poison_options_for]
    rw [hroles]
    rfl
  case Poisoner =>
    obtain ⟨roles, hroles⟩ := option_mapM_total hnb
    simp only [poison_options_for]
    rw [hroles]
    rfl
  all_goals rfl

/-- Seats whose true role is none of Pooka, Poisoner and PlagueDoctor
contribute no poison options. -/
theorem poison_options_for_not_corruptor {len : Nat} {wa : List Role}
    (i : Nat) (role : Role) (h1 : role ≠ Role.Pooka) (h2 : role ≠ Role.Poisoner)
    (h3 : role ≠ Role.PlagueDoctor) :
    poison_options_for len wa (i, role) = some [] := by
  cases role
  all_goals first
    | rfl
    | exact absurd rfl h1
    | exact absurd rfl h2
    | exact absurd rfl h3

/-- Peel the monadic structure of a successful `execute_corruption`. -/
theorem execute_corruption_some_elim {tr wa : List Role} {bms : List (List Bool)}
    (h : execute_corruption tr wa = some bms) :
    ∃ optss, (sort_by_priority tr.enum).mapM (poison_options_for tr.length wa)
        = some optss
      ∧ combine optss.flatten (List.replicate tr.length false) = some bms := by
  replace h : (do
      let option_lists ← (sort_by_priority tr.enum).mapM
        (poison_options_for tr.length wa)
      combine option_lists.flatten (List.replicate tr.length false)) = some bms := h
  cases hopt : (sort_by_priority tr.enum).mapM (poison_options_for tr.length wa) with
  | none => rw [hopt] at h; cases h
  | some optss =>
    rw [hopt] at h
    exact ⟨optss, rfl, h⟩

/-- C9: every corruption bitmap produced by `execute_corruption` marks
only seats whose Wretch-resolved role is Villager-group, and since the
Alchemist pass only clears bits, so does every bitmap a candidate world
is actually tested against; in particular a seat whose Wretch-resolved
role is not a Villager (e.g. any Wretch seat, which resolves to a
Minion) is never corrupted. -/
theorem corruption_marks_only_villagers (tr wa : List Role)
    (bms : List (List Bool)) (bm : List Bool)
    (h1 : execute_corruption tr wa = some bms) (h2 : bm ∈ bms) :
    (∀ j, bm.getD j false = true →
      ∃ r, wa.get? j = some r ∧ r.group = Group.Villager)
    ∧ ∀ (tr2 dr : List Role) (out : List Bool) (cleared : List Nat),
        execute_uncorruption tr2 dr bm = some (out, cleared) →
        ∀ j, out.getD j false = true →
          ∃ r, wa.get? j = some r ∧ r.group = Group.Villager := by
  obtain ⟨optss, hopt, hcomb⟩ := execute_corruption_some_elim h1
  have hbase : ∀ j, bm.getD j false = true →
      ∃ r, wa.get? j = some r ∧ r.group = Group.Villager := by
    intro j hj
    rcases combine_bits _ _ _ hcomb bm h2 j hj with hcur | ⟨l, hl, hjl⟩
    · rw [getD_replicate_false] at hcur; cases hcur
    · obtain ⟨ls, hls, hlls⟩ := List.mem_flatten.mp hl
      obtain ⟨x, _, hpx⟩ := option_mapM_mem hopt hls
      exact poison_options_for_villager hpx l hlls j hjl
  refine ⟨hbase, fun tr2 dr out cleared hun j hj => hbase j ?_⟩
  replace hun : List.foldlM (uncorruption_step tr2 dr bm.length)
      ((bm, List.replicate bm.length 0) : List Bool × List Nat)
      (List.range bm.length) = some (out, cleared) := hun
  exact uncorruption_fold_mono _ _ _ hun j hj

/-- Witness for C9 at a concrete input: a Poisoner between two Bakers
corrupts one of its Villager neighbours. -/
theorem corruption_marks_only_villagers_witness :
    execute_corruption [Role.Baker, Role.Poisoner, Role.Baker]
        [Role.Baker, Role.Poisoner, Role.Baker]
      = some [[true, false, false], [false, false, true]]
    ∧ ∃ r, [Role.Baker, Role.Poisoner, Role.Baker].get? 0 = some r
        ∧ r.group = Group.Villager :=
  ⟨by decide,
    (corruption_marks_only_villagers
      [Role.Baker, Role.Poisoner, Role.Baker]
      [Role.Baker, Role.Poisoner, Role.Baker]
      [[true, false, false], [false, false, true]] [true, false, false]
      (by decide) (by decide)).1 0 (by decide)⟩

/-- C10: `execute_corruption` always returns a non-empty list of
bitmaps (an elector with no fresh target is skipped, not fatal), and
with no Pooka, Poisoner or PlagueDoctor in play it returns exactly the
all-false bitmap, so statement checking always runs against at least
one corruption configuration. -/
theorem execute_corruption_nonempty (tr wa : List Role)
    (hlen : wa.length = tr.length) :
    ∃ bms, execute_corruption tr wa = some bms ∧ bms ≠ []
      ∧ ((∀ r ∈ tr, r ≠ Role.Pooka ∧ r ≠ Role.Poisoner ∧ r ≠ Role.PlagueDoctor) →
          bms = [List.replicate tr.length false]) := by
  have hopts_total : ∀ x ∈ sort_by_priority tr.enum,
      (poison_options_for tr.length wa x).isSome := by
    intro x hx
    obtain ⟨i, role⟩ := x
    have hx_enum := mem_sort_by_priority hx
    have hi : i < tr.length :=
      get?_some_lt (l := tr) (by
        rw [List.get?_eq_getElem?]
        exact List.mk_mem_enum_iff_getElem?.mp hx_enum)
    exact poison_options_for_total i role hi hlen
  obtain ⟨optss, hoptss⟩ := option_mapM_total hopts_total
  have htargets : ∀ l ∈ optss.flatten, ∀ t ∈ l,
      t < (List.replicate tr.length false).length := by
    intro l hl t ht
    obtain ⟨ls, hls, hlls⟩ := List.mem_flatten.mp hl
    obtain ⟨x, _, hpx⟩ := option_mapM_mem hoptss hls
    obtain ⟨r, hr, _⟩ := poison_options_for_villager hpx l hlls t ht
    rw [List.length_replicate, ← hlen]
    exact get?_some_lt hr
  obtain ⟨res, hres⟩ := combine_total optss.flatten _ htargets
  have hexec : execute_corruption tr wa = some res := by
    have hdef : execute_corruption tr wa = (do
        let option_lists ← (sort_by_priority tr.enum).mapM
          (poison_options_for tr.length wa)
        combine option_lists.flatten (List.replicate tr.length false)) := rfl
    rw [hdef, hoptss]
    exact hres
  refine ⟨res, hexec, combine_ne_nil _ _ _ hres, ?_⟩
  intro hno
  have hflat : optss.flatten = [] := by
    rw [List.flatten_eq_nil_iff]
    intro ls hls
    obtain ⟨x, hx, hpx⟩ := option_mapM_mem hoptss hls
    obtain ⟨i, role⟩ := x
    have hrole : role ∈ tr := by
      have := List.mk_mem_enum_iff_getElem?.mp (mem_sort_by_priority hx)
      exact List.getElem?_mem this
    obtain ⟨h1, h2, h3⟩ := hno role hrole
    rw [poison_options_for_not_corruptor i role h1 h2 h3] at hpx
    cases Option.some_inj.mp hpx
    rfl
  rw [hflat] at hres
  replace hres : (some [List.replicate tr.length false]
      : Option (List (List Bool))) = some res := hres
  cases Option.some_inj.mp hres
  rfl

/-- Witness for C10 at a concrete input with no corrupting role in
play. -/
theorem execute_corruption_nonempty_witness :
    [Role.Baker].length = [Role.Baker].length
    ∧ ∃ bms, execute_corruption [Role.Baker] [Role.Baker] = some bms ∧ bms ≠ []
      ∧ ((∀ r ∈ [Role.Baker], r ≠ Role.Pooka ∧ r ≠ Role.Poisoner
            ∧ r ≠ Role.PlagueDoctor) →
          bms = [List.replicate [Role.Baker].length false]) :=
  ⟨rfl, execute_corruption_nonempty [Role.Baker] [Role.Baker] rfl⟩

/-! ## C1, C2, C5: the search pipeline -/

theorem optFlatMap_mem {α β : Type} {f : α → Option (List β)} :
    ∀ {l : List α} {ys : List β}, optFlatMap f l = some ys →
      ∀ {y : β}, y ∈ ys → ∃ x ∈ l, ∃ zs, f x = some zs ∧ y ∈ zs := by
  intro l
  induction l with
  | nil =>
    intro ys h y hy
    replace h : (some [] : Option (List β)) = some ys := h
    cases Option.some_inj.mp h
    cases hy
  | cons x xs ih =>
    intro ys h y hy
    simp only [optFlatMap] at h
    cases hfx : f x with
    | none => rw [hfx] at h; cases h
    | some zs1 =>
      rw [hfx] at h
      cases hrest : optFlatMap f xs with
      | none => rw [hrest] at h; cases h
      | some zs2 =>
        rw [hrest] at h
        replace h : (some (zs1 ++ zs2) : Option (List β)) = some ys := h
        cases Option.some_inj.mp h
        rcases List.mem_append.mp hy with h1 | h2
        · exact ⟨x, List.mem_cons.mpr (Or.inl rfl), zs1, hfx, h1⟩
        · obtain ⟨x', hx', zs', hf', hy'⟩ := ih hrest h2
          exact ⟨x', List.mem_cons.mpr (Or.inr hx'), zs', hf', hy'⟩

theorem combinations_mem :
    ∀ (k : Nat) (l c : List Role), c ∈ combinations k l →
      c.length = k ∧ ∀ x ∈ c, x ∈ l := by
  intro k l
  induction l generalizing k with
  | nil =>
    intro c hc
    cases k with
    | zero =>
      rcases List.mem_cons.mp hc with rfl | hf
      · exact ⟨rfl, fun x hx => absurd hx (List.not_mem_nil x)⟩
      · cases hf
    | succ k => cases hc
  | cons a rest ih =>
    intro c hc
    cases k with
    | zero =>
      rcases List.mem_cons.mp hc with rfl | hf
      · exact ⟨rfl, fun x hx => absurd hx (List.not_mem_nil x)⟩
      · cases hf
    | succ k =>
      simp only [combinations] at hc
      rcases List.mem_append.mp hc with h1 | h2
      · obtain ⟨c', hc', rfl⟩ := List.mem_map.mp h1
        obtain ⟨hlen, hmem⟩ := ih k c' hc'
        refine ⟨by simp [hlen], fun x hx => ?_⟩
        rcases List.mem_cons.mp hx with rfl | hx'
        · exact List.mem_cons.mpr (Or.inl rfl)
        · exact List.mem_cons.mpr (Or.inr (hmem x hx'))
      · obtain ⟨hlen, hmem⟩ := ih (k + 1) c h2
        exact ⟨hlen, fun x hx => List.mem_cons.mpr (Or.inr (hmem x hx))⟩

theorem generate_role_variations_mem {v o m d outs : List Role} {hc : Bool}
    {combined : List Role}
    (h : combined ∈ generate_role_variations v o m d outs hc) :
    (hc = false ∧ combined = v ++ o ++ m ++ d)
    ∨ (hc = true ∧ ∃ i out r, v.get? i = some r ∧ r.group = Group.Villager
        ∧ out ∈ outs ∧ combined = v.set i out ++ o ++ m ++ d) := by
  unfold generate_role_variations at h
  cases hcv : hc with
  | false =>
    rw [hcv] at h
    simp only [Bool.not_false, if_true] at h
    rcases List.mem_cons.mp h with rfl | hf
    · exact Or.inl ⟨rfl, rfl⟩
    · cases hf
  | true =>
    rw [hcv] at h
    simp only [Bool.not_true, if_false] at h
    obtain ⟨p, hp_enum, hp_mem⟩ := List.mem_flatMap.mp h
    by_cases hpv : (p.2.group == Group.Villager) = true
    · rw [if_pos hpv] at hp_mem
      obtain ⟨out, hout, heq⟩ := List.mem_map.mp hp_mem
      refine Or.inr ⟨rfl, p.1, out, p.2, ?_, by simpa using hpv, hout, heq.symm⟩
      rw [List.get?_eq_getElem?]
      exact List.mk_mem_enum_iff_getElem?.mp hp_enum
    · rw [if_neg hpv] at hp_mem
      cases hp_mem

/-- Decrementing one key of a nodup key list lowers the mapped sum by
one. -/
theorem sum_map_decr {keys : List Role} {counts : Role → Nat} {k : Role}
    (hnodup : keys.Nodup) (hk : k ∈ keys) (hne : counts k ≠ 0) :
    (keys.map fun k2 => if k2 == k then counts k - 1 else counts k2).sum + 1
      = (keys.map counts).sum := by
  induction keys with
  | nil => cases hk
  | cons a rest ih =>
    obtain ⟨hnotin, hrest_nodup⟩ := List.nodup_cons.mp hnodup
    rcases List.mem_cons.mp hk with heq | hk'
    · subst heq
      have hmap : rest.map (fun k2 => if k2 == k then counts k - 1 else counts k2)
          = rest.map counts := by
        apply List.map_congr_left
        intro x hx
        rw [if_neg]
        intro hxk
        rw [eq_of_beq hxk] at hx
        exact hnotin hx
      have hself : (k == k) = true := by simp
      simp only [List.map_cons, List.sum_cons, hmap, hself, if_true]
      omega
    · have hak : (a == k) = false := by
        rw [beq_eq_false_iff_ne]
        rintro rfl
        exact hnotin hk'
      simp only [List.map_cons, List.sum_cons, hak, Bool.false_eq_true, if_false]
      have := ih hrest_nodup hk'
      omega

/-- Every sequence produced by `permute_multiset` extends the current
prefix by exactly the roles remaining in the counts map. -/
theorem permute_multiset_mem {keys : List Role} :
    ∀ (remaining : Nat) (counts : Role → Nat) (current w : List Role) (hc : Bool),
      w ∈ permute_multiset counts keys current remaining hc →
      keys.Nodup → (keys.map counts).sum = remaining →
      ∃ rest, w = current ++ rest
        ∧ ∀ r : Role, rest.count r = if r ∈ keys then counts r else 0 := by
  intro remaining
  induction remaining with
  | zero =>
    intro counts current w hc h hnodup hsum
    simp only [permute_multiset] at h
    split at h
    · rcases List.mem_cons.mp h with rfl | hf
      · refine ⟨[], (List.append_nil _).symm, fun r => ?_⟩
        simp only [List.count_nil]
        split
        · rename_i hr
          have := List.sum_eq_zero_iff.mp hsum (counts r) (List.mem_map_of_mem counts hr)
          omega
        · rfl
      · cases hf
    · cases h
  | succ rem ih =>
    intro counts current w hc h hnodup hsum
    simp only [permute_multiset] at h
    obtain ⟨k, hk, hmem⟩ := List.mem_flatMap.mp h
    by_cases hzero : (counts k == 0) = true
    · rw [if_pos hzero] at hmem
      cases hmem
    · rw [if_neg hzero] at hmem
      have hkne : counts k ≠ 0 := by
        intro hz
        exact hzero (by rw [hz]; rfl)
      have hsum' : (keys.map fun k2 => if k2 == k then counts k - 1 else counts k2).sum
          = rem := by
        have := sum_map_decr hnodup hk hkne
        omega
      obtain ⟨rest', hw, hcount⟩ := ih _ (current ++ [k]) w hc hmem hnodup hsum'
      refine ⟨k :: rest', by rw [hw, List.append_assoc]; rfl, fun r => ?_⟩
      rw [List.count_cons, hcount r]
      by_cases hrk : r = k
      · subst hrk
        simp [hk]
        omega
      · have hbeq : (r == k) = false := beq_eq_false_iff_ne.mpr hrk
        rw [hbeq]
        simp
        exact fun h => hrk h.symm

/-- In the solver's instantiation, every permutation is a rearrangement
of the combined multiset. -/
theorem permute_multiset_perm {combined w : List Role} {n : Nat} {hc : Bool}
    (hn : combined.length = n)
    (h : w ∈ permute_multiset (fun r => combined.count r) combined.dedup [] n hc) :
    w.Perm combined := by
  have hsum : (combined.dedup.map fun r => combined.count r).sum = n := by
    rw [List.sum_map_count_dedup_eq_length]
    exact hn
  obtain ⟨rest, hw, hcount⟩ :=
    permute_multiset_mem n _ [] w hc h (List.nodup_dedup combined) hsum
  rw [List.nil_append] at hw
  subst hw
  rw [List.perm_iff_count]
  intro r
  rw [hcount r]
  by_cases hr : r ∈ combined.dedup
  · rw [if_pos hr]
  · rw [if_neg hr]
    symm
    rw [List.count_eq_zero]
    intro hmem
    exact hr (List.mem_dedup.mpr hmem)

/-- Structure of membership in a successful `brute_force_solve`: every
returned world passed the confirmed-roles filter and is a permutation
emitted for some combination of group combos and Counsellor
variation. -/
theorem brute_force_solve_mem {deck : List Role} {visible confirmed : List (Option Role)}
    {observed : List RoleStatement} {vq oq mq dq : Nat} {verbose : Bool}
    {ws : List (List Role)} {w : List Role}
    (h : brute_force_solve deck visible confirmed observed vq oq mq dq verbose
      = some ws)
    (hw : w ∈ ws) :
    confirmed_roles_ok w confirmed = true
    ∧ ∃ v_combo ∈ combinations vq (deck.filter fun r => r.group == Group.Villager),
      ∃ o_combo ∈ combinations oq (deck.filter fun r => r.group == Group.Outcast),
      ∃ m_combo ∈ combinations mq (deck.filter fun r => r.group == Group.Minion),
      ∃ d_combo ∈ combinations dq (deck.filter fun r => r.group == Group.Demon),
      ∃ combined ∈ generate_role_variations v_combo o_combo m_combo d_combo
          (deck.filter fun r => r.group == Group.Outcast && !(o_combo.contains r))
          (m_combo.any fun r => r == Role.Counsellor),
        w ∈ permute_multiset (fun r => combined.count r) combined.dedup []
          visible.length (m_combo.any fun r => r == Role.Counsellor) := by
  unfold brute_force_solve at h
  split at h
  · cases h
  · obtain ⟨v_combo, hv_mem, zs1, hf1, hy1⟩ := optFlatMap_mem h hw
    obtain ⟨o_combo, ho_mem, zs2, hf2, hy2⟩ := optFlatMap_mem hf1 hy1
    obtain ⟨m_combo, hm_mem, zs3, hf3, hy3⟩ := optFlatMap_mem hf2 hy2
    obtain ⟨d_combo, hd_mem, zs4, hf4, hy4⟩ := optFlatMap_mem hf3 hy3
    obtain ⟨combined, hc_mem, zs5, hf5, hy5⟩ := optFlatMap_mem hf4 hy4
    obtain ⟨candidate, hp_mem, zs6, hf6, hy6⟩ := optFlatMap_mem hf5 hy5
    simp only [generate_role_combinations] at hv_mem ho_mem hm_mem hd_mem
    replace hf6 : (if (!(confirmed_roles_ok candidate confirmed)) = true then some []
        else match assign_disguises_and_check
            (build_choices candidate
              (deck.filter fun r => r.group == Group.Minion)
              (deck.filter fun r => r.alignment != Alignment.Evil)
              (combined.filter fun r =>
                r.group == Group.Villager && !(v_combo.contains r))
              (deck.filter fun r =>
                r.group == Group.Villager && !(v_combo.contains r))).1
            (build_choices candidate
              (deck.filter fun r => r.group == Group.Minion)
              (deck.filter fun r => r.alignment != Alignment.Evil)
              (combined.filter fun r =>
                r.group == Group.Villager && !(v_combo.contains r))
              (deck.filter fun r =>
                r.group == Group.Villager && !(v_combo.contains r))).2
            visible [] []
            (fun wretch_assign disguise_assign =>
              statements_match candidate wretch_assign disguise_assign observed
                verbose) with
          | none => none
          | some true => some [candidate]
          | some false => some []) = some zs6 := hf6
    cases hconf : confirmed_roles_ok candidate confirmed with
    | false =>
      rw [hconf] at hf6
      replace hf6 : (some [] : Option (List (List Role))) = some zs6 := hf6
      cases Option.some_inj.mp hf6
      cases hy6
    | true =>
      rw [hconf] at hf6
      cases hassign : assign_disguises_and_check
          (build_choices candidate
            (deck.filter fun r => r.group == Group.Minion)
            (deck.filter fun r => r.alignment != Alignment.Evil)
            (combined.filter fun r =>
              r.group == Group.Villager && !(v_combo.contains r))
            (deck.filter fun r =>
              r.group == Group.Villager && !(v_combo.contains r))).1
          (build_choices candidate
            (deck.filter fun r => r.group == Group.Minion)
            (deck.filter fun r => r.alignment != Alignment.Evil)
            (combined.filter fun r =>
              r.group == Group.Villager && !(v_combo.contains r))
            (deck.filter fun r =>
              r.group == Group.Villager && !(v_combo.contains r))).2
          visible [] []
          (fun wretch_assign disguise_assign =>
            statements_match candidate wretch_assign disguise_assign observed
              verbose) with
      | none =>
        rw [hassign] at hf6
        cases hf6
      | some b =>
        rw [hassign] at hf6
        cases b with
        | false =>
          replace hf6 : (some [] : Option (List (List Role))) = some zs6 := hf6
          cases Option.some_inj.mp hf6
          cases hy6
        | true =>
          replace hf6 : (some [candidate] : Option (List (List Role))) = some zs6 := hf6
          cases Option.some_inj.mp hf6
          rcases List.mem_cons.mp hy6 with rfl | hf
          · exact ⟨hconf, v_combo, hv_mem, o_combo, ho_mem, m_combo, hm_mem,
              d_combo, hd_mem, combined, hc_mem, hp_mem⟩
          · cases hf

/-- C2: every world returned by `brute_force_solve` agrees with every
confirmed role: if `confirmed[i] = Some r` then the world's true role
at seat `i` is `r`. -/
theorem solve_respects_confirmed {deck : List Role}
    {visible confirmed : List (Option Role)} {observed : List RoleStatement}
    {vq oq mq dq : Nat} {verbose : Bool} {ws : List (List Role)} {w : List Role}
    (h : brute_force_solve deck visible confirmed observed vq oq mq dq verbose
      = some ws)
    (hw : w ∈ ws) (i : Nat) (r r' : Role)
    (hc : confirmed.get? i = some (some r)) (hr' : w.get? i = some r') :
    r' = r := by
  have hok := (brute_force_solve_mem h hw).1
  unfold confirmed_roles_ok at hok
  rw [List.all_eq_true] at hok
  have hpair : ((r', some r) : Role × Option Role) ∈ w.zip confirmed := by
    rw [List.get?_eq_getElem?] at hc hr'
    have : (w.zip confirmed)[i]? = some (r', some r) := by
      rw [List.getElem?_zip_eq_some]
      exact ⟨hr', hc⟩
    exact List.getElem?_mem this
  have := hok _ hpair
  simp at this
  exact this.symm

/-- Witness for C2 at a concrete input (the spec's "Confirmed Knight"
scenario). -/
theorem solve_respects_confirmed_witness :
    brute_force_solve [Role.Knight, Role.Minion]
        [some Role.Knight, some Role.Knight] [some Role.Knight, none]
        [RoleStatement.NoStatement, RoleStatement.NoStatement] 1 0 1 0 false
      = some [[Role.Knight, Role.Minion]]
    ∧ [Role.Knight, Role.Minion].get? 0 = some Role.Knight
    ∧ Role.Knight = Role.Knight :=
  ⟨by decide, by decide,
    @solve_respects_confirmed [Role.Knight, Role.Minion]
      [some Role.Knight, some Role.Knight] [some Role.Knight, none]
      [RoleStatement.NoStatement, RoleStatement.NoStatement] 1 0 1 0 false
      [[Role.Knight, Role.Minion]] [Role.Knight, Role.Minion]
      (by decide) (by decide) 0 Role.Knight Role.Knight (by decide) (by decide)⟩

/-- C1 (counterexample): with deck `[Baker, Drunk, Counsellor]` and
quotas `(1, 0, 1, 0)` on two seats, the Counsellor substitution swaps
the only Villager for the out-of-play Outcast Drunk, and the solver
emits worlds with zero Villager-group seats instead of the requested
one. -/
theorem solve_quota_claim_refuted :
    brute_force_solve [Role.Baker, Role.Drunk, Role.Counsellor] [none, none]
        [none, none] [RoleStatement.NoStatement, RoleStatement.NoStatement]
        1 0 1 0 false
      = some [[Role.Drunk, Role.Counsellor], [Role.Counsellor, Role.Drunk]]
    ∧ 1 + 0 + 1 + 0 = 2
    ∧ [Role.Drunk, Role.Counsellor].countP
        (fun r => r.group == Group.Villager) ≠ 1 := by
  refine ⟨by decide, rfl, by decide⟩

theorem countP_eq_length_of_group {g : Group} {l roles : List Role}
    (hsub : ∀ x ∈ l, x ∈ roles) (hg : ∀ x ∈ roles, x.group = g) :
    l.countP (fun r => r.group == g) = l.length := by
  rw [List.countP_eq_length]
  intro a ha
  simp [hg a (hsub a ha)]

theorem countP_eq_zero_of_group_ne {g g' : Group} {l roles : List Role}
    (hsub : ∀ x ∈ l, x ∈ roles) (hg : ∀ x ∈ roles, x.group = g')
    (hne : g' ≠ g) : l.countP (fun r => r.group == g) = 0 := by
  rw [List.countP_eq_zero]
  intro a ha
  simp [hg a (hsub a ha), hne]

/-- C1 (amended): for quotas summing to N, a returned world without
Counsellor realises the quotas exactly; a returned world containing
Counsellor has one Villager-group seat fewer and one Outcast-group
seat more (the substitution of an out-of-play Outcast for a Villager),
with Minion and Demon counts unchanged. -/
theorem solve_group_counts {deck : List Role}
    {visible confirmed : List (Option Role)} {observed : List RoleStatement}
    {vq oq mq dq : Nat} {verbose : Bool} {ws : List (List Role)} {w : List Role}
    (hsum : vq + oq + mq + dq = visible.length)
    (h : brute_force_solve deck visible confirmed observed vq oq mq dq verbose
      = some ws)
    (hw : w ∈ ws) :
    (Role.Counsellor ∉ w →
      w.countP (fun r => r.group == Group.Villager) = vq
        ∧ w.countP (fun r => r.group == Group.Outcast) = oq
        ∧ w.countP (fun r => r.group == Group.Minion) = mq
        ∧ w.countP (fun r => r.group == Group.Demon) = dq)
    ∧ (Role.Counsellor ∈ w →
      w.countP (fun r => r.group == Group.Villager) + 1 = vq
        ∧ w.countP (fun r => r.group == Group.Outcast) = oq + 1
        ∧ w.countP (fun r => r.group == Group.Minion) = mq
        ∧ w.countP (fun r => r.group == Group.Demon) = dq) := by
  obtain ⟨-, v_combo, hv, o_combo, ho, m_combo, hm, d_combo, hd, combined, hvar,
    hperm_mem⟩ := brute_force_solve_mem h hw
  obtain ⟨hv_len, hv_sub⟩ := combinations_mem _ _ _ hv
  obtain ⟨ho_len, ho_sub⟩ := combinations_mem _ _ _ ho
  obtain ⟨hm_len, hm_sub⟩ := combinations_mem _ _ _ hm
  obtain ⟨hd_len, hd_sub⟩ := combinations_mem _ _ _ hd
  have hv_grp : ∀ x ∈ v_combo, x.group = Group.Villager := fun x hx => by
    have := hv_sub x hx
    simp only [List.mem_filter, beq_iff_eq] at this
    exact this.2
  have ho_grp : ∀ x ∈ o_combo, x.group = Group.Outcast := fun x hx => by
    have := ho_sub x hx
    simp only [List.mem_filter, beq_iff_eq] at this
    exact this.2
  have hm_grp : ∀ x ∈ m_combo, x.group = Group.Minion := fun x hx => by
    have := hm_sub x hx
    simp only [List.mem_filter, beq_iff_eq] at this
    exact this.2
  have hd_grp : ∀ x ∈ d_combo, x.group = Group.Demon := fun x hx => by
    have := hd_sub x hx
    simp only [List.mem_filter, beq_iff_eq] at this
    exact this.2
  have count_of : ∀ (l : List Role) (g : Group), (∀ x ∈ l, x.group = g) →
      ∀ g' : Group, l.countP (fun r => r.group == g') = if g = g' then l.length else 0 := by
    intro l g hall g'
    by_cases hgg : g = g'
    · subst hgg
      rw [if_pos rfl, List.countP_eq_length]
      intro a ha
      simp [hall a ha]
    · rw [if_neg hgg, List.countP_eq_zero]
      intro a ha
      simp [hall a ha, hgg]
  rcases generate_role_variations_mem hvar with ⟨hcf, rfl⟩ | ⟨hct, i, out, rv, hrv, hrv_grp, hout, rfl⟩
  · -- no Counsellor: the four combos concatenate unchanged
    have hlen : (v_combo ++ o_combo ++ m_combo ++ d_combo).length = visible.length := by
      simp [hv_len, ho_len, hm_len, hd_len]
      omega
    have hperm := permute_multiset_perm hlen hperm_mem
    have hcounts : ∀ g' : Group, w.countP (fun r => r.group == g')
        = (if Group.Villager = g' then vq else 0) + (if Group.Outcast = g' then oq else 0)
          + (if Group.Minion = g' then mq else 0) + (if Group.Demon = g' then dq else 0) := by
      intro g'
      rw [hperm.countP_eq]
      simp only [List.countP_append]
      rw [count_of v_combo _ hv_grp g', count_of o_combo _ ho_grp g',
        count_of m_combo _ hm_grp g', count_of d_combo _ hd_grp g',
        hv_len, ho_len, hm_len, hd_len]
    have hnoc : Role.Counsellor ∉ w := by
      rw [hperm.mem_iff]
      intro hmem
      have hmc : Role.Counsellor ∉ m_combo := by
        have := List.any_eq_false.mp hcf
        intro hmm
        exact this _ hmm (by simp)
      rcases List.mem_append.mp hmem with h1 | h1
      · rcases List.mem_append.mp h1 with h2 | h2
        · rcases List.mem_append.mp h2 with h3 | h3
          · have := hv_grp _ h3
            simp [Role.group] at this
          · have := ho_grp _ h3
            simp [Role.group] at this
        · exact hmc h2
      · have := hd_grp _ h1
        simp [Role.group] at this
    refine ⟨fun _ => ?_, fun hcon => absurd hcon hnoc⟩
    refine ⟨?_, ?_, ?_, ?_⟩ <;> · rw [hcounts]; simp
  · -- Counsellor: one Villager of v_combo replaced by an Outcast
    have hi_lt : i < v_combo.length := get?_some_lt hrv
    have hget : v_combo[i] = rv := by
      rw [List.get?_eq_getElem?] at hrv
      exact (List.getElem?_eq_some_iff.mp hrv).2
    have hout_grp : out.group = Group.Outcast := by
      simp only [List.mem_filter, Bool.and_eq_true, beq_iff_eq] at hout
      exact hout.2.1
    have hlen : (v_combo.set i out ++ o_combo ++ m_combo ++ d_combo).length
        = visible.length := by
      simp [List.length_set, hv_len, ho_len, hm_len, hd_len]
      omega
    have hperm := permute_multiset_perm hlen hperm_mem
    have hvq_pos : 1 ≤ vq := by
      rw [← hv_len]
      omega
    have hset_counts : ∀ g' : Group,
        (v_combo.set i out).countP (fun r => r.group == g')
          = v_combo.countP (fun r => r.group == g')
            - (if Group.Villager = g' then 1 else 0)
            + (if Group.Outcast = g' then 1 else 0) := by
      intro g'
      rw [List.countP_set _ _ _ _ hi_lt, hget]
      have hrvc : ((rv.group == g') = true) ↔ (Group.Villager = g') := by
        rw [hrv_grp]; exact beq_iff_eq
      have houtc : ((out.group == g') = true) ↔ (Group.Outcast = g') := by
        rw [hout_grp]; exact beq_iff_eq
      by_cases hvg : Group.Villager = g' <;> by_cases hog : Group.Outcast = g'
      · rw [← hog] at hvg; cases hvg
      · rw [if_pos (hrvc.mpr hvg), if_neg (fun hh => hog (houtc.mp hh)),
          if_pos hvg, if_neg hog]
      · rw [if_neg (fun hh => hvg (hrvc.mp hh)), if_pos (houtc.mpr hog),
          if_neg hvg, if_pos hog]
      · rw [if_neg (fun hh => hvg (hrvc.mp hh)), if_neg (fun hh => hog (houtc.mp hh)),
          if_neg hvg, if_neg hog]
    have hcon : Role.Counsellor ∈ w := by
      rw [hperm.mem_iff]
      have : Role.Counsellor ∈ m_combo := by
        obtain ⟨x, hx, hxc⟩ := List.any_eq_true.mp hct
        rw [eq_of_beq hxc] at hx
        exact hx
      simp [this]
    have hcounts : ∀ g' : Group, w.countP (fun r => r.group == g')
        = ((if Group.Villager = g' then vq else 0)
            - (if Group.Villager = g' then 1 else 0)
            + (if Group.Outcast = g' then 1 else 0))
          + (if Group.Outcast = g' then oq else 0)
          + (if Group.Minion = g' then mq else 0)
          + (if Group.Demon = g' then dq else 0) := by
      intro g'
      rw [hperm.countP_eq]
      simp only [List.countP_append]
      rw [hset_counts g', count_of v_combo _ hv_grp g', count_of o_combo _ ho_grp g',
        count_of m_combo _ hm_grp g', count_of d_combo _ hd_grp g',
        hv_len, ho_len, hm_len, hd_len]
    refine ⟨fun hnc => absurd hcon hnc, fun _ => ?_⟩
    refine ⟨?_, ?_, ?_, ?_⟩ <;> · rw [hcounts]; simp; try omega

/-- Witness for the amended C1 theorem, at the counterexample input
(Counsellor case) — the returned world `[Drunk, Counsellor]` has
`villagers - 1 = 0` Villagers and `outcasts + 1 = 1` Outcast. -/
theorem solve_group_counts_witness :
    (1 + 0 + 1 + 0
      = ([none, none] : List (Option Role)).length)
    ∧ ([Role.Drunk, Role.Counsellor].countP
          (fun r => r.group == Group.Villager) + 1 = 1
        ∧ [Role.Drunk, Role.Counsellor].countP
          (fun r => r.group == Group.Outcast) = 0 + 1) := by
  refine ⟨by decide, ?_⟩
  have := (@solve_group_counts [Role.Baker, Role.Drunk, Role.Counsellor]
    [none, none] [none, none]
    [RoleStatement.NoStatement, RoleStatement.NoStatement] 1 0 1 0 false
    [[Role.Drunk, Role.Counsellor], [Role.Counsellor, Role.Drunk]]
    [Role.Drunk, Role.Counsellor]
    (by decide) (by decide) (by decide)).2 (by decide)
  exact ⟨this.1, this.2.1⟩

/-- C5 (code bug): `deck_villagers_in_play` filters `combined` for
Villagers *not* in `v_combo`, but every Villager of `combined` comes
from `v_combo`, so the DoppelGanger's disguise-choice set is always
empty and every world containing a DoppelGanger is rejected.  With deck
`[Baker, DoppelGanger, Minion]` and quotas `(1, 1, 1, 0)` the solver
returns no worlds, although the specification's "Villager roles
currently in play" set is the non-empty `[Baker]` (the in-play filter
used by the code is empty on the very same multiset). -/
theorem doppelganger_disguise_bug :
    brute_force_solve [Role.Baker, Role.DoppelGanger, Role.Minion]
        [none, none, none] [none, none, none]
        [RoleStatement.NoStatement, RoleStatement.NoStatement,
          RoleStatement.NoStatement] 1 1 1 0 false
      = some []
    ∧ spec_villagers_in_play [Role.Baker, Role.DoppelGanger, Role.Minion]
      = [Role.Baker]
    ∧ [Role.Baker, Role.DoppelGanger, Role.Minion].filter
        (fun r => r.group == Group.Villager && !([Role.Baker].contains r)) = [] := by
  refine ⟨by decide, by decide, by decide⟩

/-! ## C3: absence of panics on well-behaved inputs -/

/-- The visible roles for which `can_produce_statement` has a match arm
(everything except Poet, Baker, Witness, DoppelGanger, Drunk, the
Minion-group roles and the Demon-group roles, which hit the panicking
catch-all). -/
def handled_visible (r : Role) : Bool :=
  match r with
  | .Poet | .Baker | .Witness | .DoppelGanger | .Drunk | .Counsellor | .Minion
  | .Poisoner | .Puppet | .Puppeteer | .TwinMinion | .Witch
  | .Baa | .Lilis | .Pooka => false
  | _ => true

/-- The payload conditions under which the per-role predicates never
index out of range: every seat index carried by the statement is below
`n`, and an Oracle statement names at least two seats. -/
def stmt_indexes_ok (n : Nat) : RoleStatement → Bool
  | .NoStatement => true
  | .Alchemist _ => true
  | .Architect _ => true
  | .Bard _ => true
  | .Bishop t => (iterOnes t).all fun i => decide (i < n)
  | .Confessor _ => true
  | .Druid t _ => (iterOnes t).all fun i => decide (i < n)
  | .Dreamer t _ => decide (t < n)
  | .Empress t => (iterOnes t).all fun i => decide (i < n)
  | .Enlightened _ => true
  | .FortuneTeller t _ => (iterOnes t).all fun i => decide (i < n)
  | .Gemcrafter _ => true
  | .Hunter _ => true
  | .Jester t _ => (iterOnes t).all fun i => decide (i < n)
  | .Judge t _ => decide (t < n)
  | .Knitter _ => true
  | .Lover _ => true
  | .Medium t _ => decide (t < n)
  | .Oracle t _ => decide (2 ≤ (iterOnes t).length)
      && ((iterOnes t).all fun i => decide (i < n))
  | .Scout _ _ => true
  | .Slayer _ _ => true
  | .PlagueDoctor c e => decide (c < n)
      && (match e with | some ei => decide (ei < n) | none => true)

theorem tryEach_isSome {α : Type} {f : α → Option Bool} :
    ∀ {l : List α}, (∀ x ∈ l, (f x).isSome) → (tryEach f l).isSome := by
  intro l
  induction l with
  | nil => intro _; rfl
  | cons x xs ih =>
    intro hall
    unfold tryEach
    cases hfx : f x with
    | none =>
      have := hall x (List.mem_cons.mpr (Or.inl rfl))
      rw [hfx] at this
      cases this
    | some b =>
      cases b
      · exact ih fun y hy => hall y (List.mem_cons.mpr (Or.inr hy))
      · rfl

theorem optFlatMap_total {α β : Type} {f : α → Option (List β)} :
    ∀ {l : List α}, (∀ x ∈ l, ∃ ys, f x = some ys) →
      ∃ ys, optFlatMap f l = some ys := by
  intro l
  induction l with
  | nil => intro _; exact ⟨[], rfl⟩
  | cons x xs ih =>
    intro hall
    obtain ⟨ys1, hys1⟩ := hall x (List.mem_cons.mpr (Or.inl rfl))
    obtain ⟨ys2, hys2⟩ := ih fun y hy => hall y (List.mem_cons.mpr (Or.inr hy))
    refine ⟨ys1 ++ ys2, ?_⟩
    simp only [optFlatMap]
    rw [hys1, hys2]
    rfl

theorem optAll_isSome {p : Nat → Option Bool} :
    ∀ {l : List Nat}, (∀ i ∈ l, (p i).isSome) → (optAll p l).isSome := by
  intro l
  induction l with
  | nil => intro _; rfl
  | cons i rest ih =>
    intro hall
    unfold optAll
    cases hpi : p i with
    | none =>
      have := hall i (List.mem_cons.mpr (Or.inl rfl))
      rw [hpi] at this
      cases this
    | some b =>
      cases b
      · rfl
      · exact ih fun j hj => hall j (List.mem_cons.mpr (Or.inr hj))

theorem optAny_isSome {p : Nat → Option Bool} :
    ∀ {l : List Nat}, (∀ i ∈ l, (p i).isSome) → (optAny p l).isSome := by
  intro l
  induction l with
  | nil => intro _; rfl
  | cons i rest ih =>
    intro hall
    unfold optAny
    cases hpi : p i with
    | none =>
      have := hall i (List.mem_cons.mpr (Or.inl rfl))
      rw [hpi] at this
      cases this
    | some b =>
      cases b
      · exact ih fun j hj => hall j (List.mem_cons.mpr (Or.inr hj))
      · rfl

theorem count_side_evils_isSome {tr : List Role} (h : 2 ≤ tr.length) :
    (count_side_evils tr).isSome := by
  unfold count_side_evils
  rw [if_neg]
  · rfl
  · push_neg
    constructor
    · omega
    · split <;> omega

theorem uncorruption_step_isSome {tr dr : List Role} {len : Nat}
    {s : List Bool × List Nat} {i : Nat} (h1 : i < tr.length) (h2 : i < dr.length) :
    (uncorruption_step tr dr len s i).isSome := by
  unfold uncorruption_step
  obtain ⟨d, hd⟩ := Option.isSome_iff_exists.mp (get?_isSome_of_lt h2)
  obtain ⟨t, ht⟩ := Option.isSome_iff_exists.mp (get?_isSome_of_lt h1)
  rw [hd]
  simp only [Option.bind_eq_bind, Option.some_bind]
  by_cases hda : (d != Role.Alchemist) = true
  · rw [if_pos hda]; rfl
  · rw [if_neg hda]
    by_cases hcor : s.1.getD i false = true
    · rw [if_pos hcor]; rfl
    · rw [if_neg hcor, ht]
      simp only [Option.bind_eq_bind, Option.some_bind]
      by_cases hl : t.lying = true
      · rw [if_pos hl]; rfl
      · rw [if_neg hl]; rfl

theorem uncorruption_fold_isSome {tr dr : List Role} {len : Nat} :
    ∀ (idxs : List Nat) (s0 : List Bool × List Nat),
      (∀ i ∈ idxs, i < tr.length ∧ i < dr.length) →
      ∃ s1, List.foldlM (uncorruption_step tr dr len) s0 idxs = some s1 := by
  intro idxs
  induction idxs with
  | nil => intro s0 _; exact ⟨s0, rfl⟩
  | cons a rest ih =>
    intro s0 hall
    obtain ⟨h1, h2⟩ := hall a (List.mem_cons.mpr (Or.inl rfl))
    obtain ⟨s_mid, hmid⟩ := Option.isSome_iff_exists.mp
      (@uncorruption_step_isSome tr dr len s0 a h1 h2)
    obtain ⟨s1, hs1⟩ := ih s_mid fun i hi => hall i (List.mem_cons.mpr (Or.inr hi))
    refine ⟨s1, ?_⟩
    rw [List.foldlM_cons, hmid]
    exact hs1

/-- `execute_uncorruption` succeeds, with length-preserving outputs,
whenever the three inputs have equal length. -/
theorem execute_uncorruption_total {tr dr : List Role} {corr : List Bool}
    (h1 : tr.length = corr.length) (h2 : dr.length = corr.length) :
    ∃ out cleared, execute_uncorruption tr dr corr = some (out, cleared)
      ∧ out.length = corr.length ∧ cleared.length = corr.length := by
  obtain ⟨⟨out, cleared⟩, hfold⟩ :=
    @uncorruption_fold_isSome tr dr corr.length
      (List.range corr.length) (corr, List.replicate corr.length 0)
      (fun i hi => by
        have := List.mem_range.mp hi
        omega)
  obtain ⟨hl1, hl2⟩ := uncorruption_fold_lengths _ _ _ hfold
  exact ⟨out, cleared, hfold, by simpa using hl1, by simpa using hl2⟩

/-- `execute_corruption` succeeds, producing bitmaps of table length,
whenever the Wretch assignment covers the table. -/
theorem execute_corruption_total {tr wa : List Role}
    (hlen : wa.length = tr.length) :
    ∃ bms, execute_corruption tr wa = some bms
      ∧ ∀ bm ∈ bms, bm.length = tr.length := by
  have hopts_total : ∀ x ∈ sort_by_priority tr.enum,
      (poison_options_for tr.length wa x).isSome := by
    intro x hx
    obtain ⟨i, role⟩ := x
    have hx_enum := mem_sort_by_priority hx
    have hi : i < tr.length :=
      get?_some_lt (l := tr) (by
        rw [List.get?_eq_getElem?]
        exact List.mk_mem_enum_iff_getElem?.mp hx_enum)
    exact poison_options_for_total i role hi hlen
  obtain ⟨optss, hoptss⟩ := option_mapM_total hopts_total
  have htargets : ∀ l ∈ optss.flatten, ∀ t ∈ l,
      t < (List.replicate tr.length false).length := by
    intro l hl t ht
    obtain ⟨ls, hls, hlls⟩ := List.mem_flatten.mp hl
    obtain ⟨x, _, hpx⟩ := option_mapM_mem hoptss hls
    obtain ⟨r, hr, _⟩ := poison_options_for_villager hpx l hlls t ht
    rw [List.length_replicate, ← hlen]
    exact get?_some_lt hr
  obtain ⟨res, hres⟩ := combine_total optss.flatten _ htargets
  refine ⟨res, ?_, ?_⟩
  · have hdef : execute_corruption tr wa = (do
        let option_lists ← (sort_by_priority tr.enum).mapM
          (poison_options_for tr.length wa)
        combine option_lists.flatten (List.replicate tr.length false)) := rfl
    rw [hdef, hoptss]
    exact hres
  · intro bm hbm
    have := combine_length _ _ _ hres bm hbm
    simpa using this

theorem get?_ex {α : Type} {l : List α} {i n : Nat}
    (hl : l.length = n) (hi : i < n) : ∃ x, l.get? i = some x :=
  Option.isSome_iff_exists.mp (get?_isSome_of_lt (by rw [hl]; exact hi))

theorem isSome_bind {α β : Type} {o : Option α} {f : α → Option β}
    (ho : o.isSome) (hf : ∀ a, (f a).isSome) : (o.bind f).isSome := by
  obtain ⟨a, ha⟩ := Option.isSome_iff_exists.mp ho
  rw [ha]
  exact hf a

theorem map_get?_isSome {α : Type} {l : List α} {i n : Nat} {g : α → Bool}
    (hl : l.length = n) (hi : i < n) : ((l.get? i).map g).isSome := by
  obtain ⟨r, hr⟩ := get?_ex hl hi
  rw [hr]
  rfl

theorem of_all_lt {t n : Nat}
    (h : ((iterOnes t).all fun i => decide (i < n)) = true) :
    ∀ i ∈ iterOnes t, i < n :=
  fun i hi => of_decide_eq_true (List.all_eq_true.mp h i hi)

theorem option_mapM_isSome {α β : Type} {f : α → Option β} {l : List α}
    (h : ∀ x ∈ l, (f x).isSome) : (l.mapM f).isSome := by
  obtain ⟨ys, hys⟩ := option_mapM_total h
  rw [hys]
  rfl

set_option maxHeartbeats 1600000 in
/-- `can_produce_statement` never hits the panicking catch-all when the
visible role is handled, all lists have the table length, the position is
a valid seat, the statement's seat indexes are in range (with at least
two Oracle targets), and an Architect speaker implies a table of at least
two seats. -/
theorem can_produce_statement_isSome {v : Role} {lying : Bool}
    {tr dr : List Role} {corr : List Bool} {unc : List Nat} {pos : Nat}
    {stmt : RoleStatement} {n : Nat}
    (hv : handled_visible v = true)
    (htr : tr.length = n) (hdr : dr.length = n)
    (hcorr : corr.length = n) (hunc : unc.length = n) (hpos : pos < n)
    (hok : stmt_indexes_ok n stmt = true)
    (harch : v = Role.Architect → 2 ≤ n) :
    (can_produce_statement v lying tr dr corr unc pos stmt).isSome := by
  cases v
  case Poet | Baker | Witness | DoppelGanger | Drunk | Counsellor | Minion
    | Poisoner | Puppet | Puppeteer | TwinMinion | Witch
    | Baa | Lilis | Pooka => exact Bool.noConfusion hv
  case Alchemist =>
    cases lying with
    | true => cases stmt <;> rfl
    | false =>
      cases stmt <;> try rfl
      exact isSome_bind (get?_isSome_of_lt (by rw [hunc]; exact hpos)) fun _ => rfl
  case Architect =>
    have h2 : 2 ≤ tr.length := by rw [htr]; exact harch rfl
    cases lying <;>
      exact isSome_bind (count_side_evils_isSome h2) fun _ => rfl
  case Bard =>
    cases lying with
    | true =>
      cases stmt <;> try rfl
      rename_i d
      cases d <;> rfl
    | false => cases stmt <;> rfl
  case Bishop =>
    cases lying with
    | true =>
      cases stmt <;> try rfl
      simp only [stmt_indexes_ok] at hok
      exact optAll_isSome fun i hi => map_get?_isSome htr (of_all_lt hok i hi)
    | false =>
      cases stmt <;> try rfl
      simp only [stmt_indexes_ok] at hok
      exact isSome_bind
        (option_mapM_isSome fun i hi =>
          get?_isSome_of_lt (by rw [htr]; exact of_all_lt hok i hi))
        fun _ => rfl
  case Confessor => cases lying <;> rfl
  case Dreamer =>
    cases lying <;> (
      cases stmt <;> try rfl
      simp only [stmt_indexes_ok] at hok
      exact isSome_bind
        (get?_isSome_of_lt (by rw [htr]; exact of_decide_eq_true hok))
        fun _ => rfl)
  case Druid =>
    cases lying with
    | true =>
      cases stmt <;> try rfl
      rename_i t ro
      simp only [stmt_indexes_ok] at hok
      cases ro with
      | some role =>
        exact optAll_isSome fun i hi => map_get?_isSome htr (of_all_lt hok i hi)
      | none =>
        exact optAny_isSome fun i hi => map_get?_isSome htr (of_all_lt hok i hi)
    | false =>
      cases stmt <;> try rfl
      rename_i t ro
      simp only [stmt_indexes_ok] at hok
      cases ro with
      | some role =>
        exact optAny_isSome fun i hi => map_get?_isSome htr (of_all_lt hok i hi)
      | none =>
        exact isSome_bind
          (optAny_isSome fun i hi => map_get?_isSome htr (of_all_lt hok i hi))
          fun _ => rfl
  case Empress =>
    cases lying with
    | true =>
      cases stmt <;> try rfl
      simp only [stmt_indexes_ok] at hok
      exact optAll_isSome fun i hi => map_get?_isSome htr (of_all_lt hok i hi)
    | false =>
      cases stmt <;> try rfl
      simp only [stmt_indexes_ok] at hok
      exact isSome_bind
        (option_mapM_isSome fun i hi =>
          get?_isSome_of_lt (by rw [htr]; exact of_all_lt hok i hi))
        fun _ => rfl
  case Enlightened =>
    cases lying with
    | true => cases stmt <;> rfl
    | false => rfl
  case FortuneTeller =>
    cases lying <;> (
      cases stmt <;> try rfl
      simp only [stmt_indexes_ok] at hok
      exact isSome_bind
        (optAny_isSome fun i hi => map_get?_isSome htr (of_all_lt hok i hi))
        fun _ => rfl)
  case Gemcrafter =>
    cases lying <;> (
      cases stmt <;> try rfl
      rename_i t
      delta can_produce_statement
      simp only [reduceIte]
      cases tr.get? t <;> rfl)
  case Hunter => cases lying <;> cases stmt <;> rfl
  case Jester =>
    cases lying <;> (
      cases stmt <;> try rfl
      simp only [stmt_indexes_ok] at hok
      exact isSome_bind
        (option_mapM_isSome fun i hi =>
          get?_isSome_of_lt (by rw [htr]; exact of_all_lt hok i hi))
        fun _ => rfl)
  case Judge =>
    cases lying <;> (
      cases stmt <;> try rfl
      simp only [stmt_indexes_ok] at hok
      have htn := of_decide_eq_true hok
      refine isSome_bind (get?_isSome_of_lt (by rw [htr]; exact htn)) fun rt => ?_
      by_cases h : rt.lying = true
      · rw [if_pos h]
        refine isSome_bind rfl fun lies => ?_
        cases lies
        · rfl
        · exact isSome_bind (map_get?_isSome hdr htn) fun _ => rfl
      · rw [if_neg h]
        refine isSome_bind (get?_isSome_of_lt (by rw [hcorr]; exact htn))
          fun lies => ?_
        cases lies
        · rfl
        · exact isSome_bind (map_get?_isSome hdr htn) fun _ => rfl)
  case Knitter => cases lying <;> cases stmt <;> rfl
  case Lover => cases lying <;> cases stmt <;> rfl
  case Medium =>
    cases lying with
    | true =>
      cases stmt <;> try rfl
      rename_i t r
      delta can_produce_statement
      simp only [reduceIte]
      by_cases h : t < tr.length ∧ t < dr.length
      · rw [if_pos h]; rfl
      · rw [if_neg h]; rfl
    | false =>
      cases stmt <;> try rfl
      rename_i t r
      simp only [stmt_indexes_ok] at hok
      have htn := of_decide_eq_true hok
      delta can_produce_statement
      simp only [reduceIte]
      by_cases h : (t == pos) = true
      · rw [if_pos h]; rfl
      · rw [if_neg h]
        exact isSome_bind (get?_isSome_of_lt (by rw [htr]; exact htn)) fun _ => rfl
  case Oracle =>
    cases lying with
    | true =>
      cases stmt <;> try rfl
      simp only [stmt_indexes_ok, Bool.and_eq_true] at hok
      exact optAll_isSome fun i hi => map_get?_isSome htr (of_all_lt hok.2 i hi)
    | false =>
      cases stmt <;> try rfl
      rename_i t r
      simp only [stmt_indexes_ok, Bool.and_eq_true] at hok
      have h2 := of_decide_eq_true hok.1
      have hall := of_all_lt hok.2
      delta can_produce_statement
      simp only [reduceIte]
      rcases hio : iterOnes t with _ | ⟨f, _ | ⟨s, rest⟩⟩
      · rw [hio] at h2; simp at h2
      · rw [hio] at h2; simp at h2
      · try rw [hio]
        have hf : f < n := hall f (by rw [hio]; exact List.mem_cons_self _ _)
        have hs : s < n := hall s
          (by rw [hio]; exact List.mem_cons.mpr (Or.inr (List.mem_cons_self _ _)))
        exact isSome_bind (get?_isSome_of_lt (by rw [htr]; exact hf))
          fun rf => isSome_bind (get?_isSome_of_lt (by rw [htr]; exact hs))
            fun rs => rfl
  case Scout =>
    cases lying <;> (
      cases stmt <;> try rfl
      rename_i ro d
      cases ro <;> rfl)
  case Slayer =>
    cases lying with
    | true => cases stmt <;> rfl
    | false =>
      cases stmt <;> try rfl
      rename_i t al
      delta can_produce_statement
      simp only [reduceIte]
      cases tr.get? t <;> rfl
  case PlagueDoctor =>
    cases lying <;> (
      cases stmt <;> try rfl
      rename_i ci e
      delta can_produce_statement
      simp only [reduceIte]
      cases e with
      | none =>
        simp only [stmt_indexes_ok, Bool.and_true] at hok
        have hci := of_decide_eq_true hok
        obtain ⟨b, hb⟩ := get?_ex hcorr hci
        rw [hb]
        rfl
      | some ei =>
        simp only [stmt_indexes_ok, Bool.and_eq_true] at hok
        have hci := of_decide_eq_true hok.1
        have hei := of_decide_eq_true hok.2
        obtain ⟨b, hb⟩ := get?_ex hcorr hci
        rw [hb]
        cases b <;> first | rfl | exact map_get?_isSome htr hei)
  case Bombardier => cases lying <;> rfl
  case Wretch => cases lying <;> rfl
  case Knight => cases lying <;> rfl

theorem drop_eq_cons_of_get? {α : Type} {l : List α} {i : Nat} {a : α}
    (h : l.get? i = some a) : l.drop i = a :: l.drop (i + 1) := by
  rw [List.get?_eq_getElem?] at h
  obtain ⟨hlt, heq⟩ := List.getElem?_eq_some_iff.mp h
  rw [List.drop_eq_getElem_cons hlt, heq]

/-- Every sequence emitted by `permute_multiset` has length
`current.length + remaining`. -/
theorem permute_multiset_length {keys : List Role} :
    ∀ (remaining : Nat) (counts : Role → Nat) (current : List Role)
      (hc : Bool) (w : List Role),
      w ∈ permute_multiset counts keys current remaining hc →
      w.length = current.length + remaining := by
  intro remaining
  induction remaining with
  | zero =>
    intro counts current hc w hw
    unfold permute_multiset at hw
    by_cases hok : counsellor_adjacency_ok current = true
    · rw [if_pos hok] at hw
      rcases List.mem_singleton.mp hw with rfl
      rfl
    · rw [if_neg hok] at hw
      cases hw
  | succ r ih =>
    intro counts current hc w hw
    unfold permute_multiset at hw
    obtain ⟨k, _, hk⟩ := List.mem_flatMap.mp hw
    by_cases hz : (counts k == 0) = true
    · rw [if_pos hz] at hk
      cases hk
    · rw [if_neg hz] at hk
      have := ih _ _ _ _ hk
      simp only [List.length_append, List.length_cons, List.length_nil] at this
      omega

/-- `check_seats` never panics when all state lists have the table
length, the remaining triples fit before seat `n`, and the statement
hypotheses of C3 hold for the visible roles recorded in the triples. -/
theorem check_seats_isSome {wa da : List Role} {corr : List Bool}
    {unc : List Nat} {obs : List RoleStatement} {n : Nat}
    (hwa : wa.length = n) (hda : da.length = n) (hcorr : corr.length = n)
    (hunc : unc.length = n) (hobs : obs.length = n) :
    ∀ (triples : List (Role × Role × Bool)) (idx : Nat),
      idx + triples.length ≤ n →
      (∀ k t v c, triples.get? k = some (t, v, c) →
        ∀ stmt, obs.get? (idx + k) = some stmt →
          stmt ≠ RoleStatement.NoStatement →
          handled_visible v = true ∧ stmt_indexes_ok n stmt = true
            ∧ (v = Role.Architect → 2 ≤ n)) →
      (check_seats triples idx wa da corr unc obs).isSome := by
  intro triples
  induction triples with
  | nil => intro idx _ _; rfl
  | cons trip rest ih =>
    obtain ⟨t, v, c⟩ := trip
    intro idx hlen hcond
    have hidx : idx < n := by
      simp only [List.length_cons] at hlen
      omega
    obtain ⟨stmt, hstmt⟩ := get?_ex hobs hidx
    have hrec : (check_seats rest (idx + 1) wa da corr unc obs).isSome := by
      refine ih (idx + 1) ?_ ?_
      · simp only [List.length_cons] at hlen
        omega
      · intro k t' v' c' hk stmt' hs' hne'
        have hs'' : obs.get? (idx + (k + 1)) = some stmt' := by
          have : idx + 1 + k = idx + (k + 1) := by omega
          rw [this] at hs'
          exact hs'
        exact hcond (k + 1) t' v' c' hk stmt' hs'' hne'
    unfold check_seats
    rw [hstmt]
    show (if (stmt == RoleStatement.NoStatement) = true
        then check_seats rest (idx + 1) wa da corr unc obs
        else match can_produce_statement v (t.lying || c) wa da corr unc idx stmt with
          | none => none
          | some false => some false
          | some true => check_seats rest (idx + 1) wa da corr unc obs).isSome = true
    cases hzero : stmt == RoleStatement.NoStatement with
    | true => exact hrec
    | false =>
      have hne : stmt ≠ RoleStatement.NoStatement :=
        beq_eq_false_iff_ne.mp hzero
      obtain ⟨hv, hok, harch⟩ := hcond 0 t v c rfl stmt hstmt hne
      obtain ⟨b, hb⟩ := Option.isSome_iff_exists.mp
        (@can_produce_statement_isSome v (t.lying || c) wa da corr unc idx stmt n
          hv hwa hda hcorr hunc hidx hok harch)
      rw [hb]
      cases b
      · rfl
      · exact hrec

/-- `statements_match` never panics when all assignment lists have the
table length and every statement-bearing seat carries a handled,
index-valid disguise per the C3 hypotheses. -/
theorem statements_match_isSome {candidate wa da : List Role}
    {obs : List RoleStatement} {verbose : Bool} {n : Nat}
    (hcand : candidate.length = n) (hwa : wa.length = n) (hda : da.length = n)
    (hobs : obs.length = n)
    (hstmtda : ∀ k stmt, obs.get? k = some stmt →
      stmt ≠ RoleStatement.NoStatement →
      ∃ v, da.get? k = some v ∧ handled_visible v = true
        ∧ stmt_indexes_ok n stmt = true ∧ (v = Role.Architect → 2 ≤ n)) :
    (statements_match candidate wa da obs verbose).isSome := by
  obtain ⟨bms, hbms, hbmlen⟩ :=
    @execute_corruption_total candidate wa (by rw [hwa, hcand])
  unfold statements_match
  rw [hbms]
  simp only [Option.bind_eq_bind, Option.some_bind]
  refine tryEach_isSome fun bm hbm => ?_
  have hbl : bm.length = n := by rw [hbmlen bm hbm, hcand]
  obtain ⟨out, cleared, hexec, hol, hcl⟩ :=
    @execute_uncorruption_total candidate da bm
      (by rw [hcand, hbl]) (by rw [hda, hbl])
  rw [hexec]
  simp only [Option.bind_eq_bind, Option.some_bind]
  refine check_seats_isSome hwa hda (by rw [hol, hbl]) (by rw [hcl, hbl]) hobs
    (candidate.zip (da.zip out)) 0 ?_ ?_
  · simp only [List.length_zip, Nat.zero_add]
    omega
  · intro k t v c hk stmt hs hne
    rw [Nat.zero_add] at hs
    rw [List.get?_eq_getElem?] at hk
    obtain ⟨hkc, hkdo⟩ := List.getElem?_zip_eq_some.mp hk
    obtain ⟨hkd, hko⟩ := List.getElem?_zip_eq_some.mp hkdo
    obtain ⟨v', hv', hh, hok, harch⟩ := hstmtda k stmt hs hne
    rw [List.get?_eq_getElem?] at hv'
    rw [hv'] at hkd
    cases hkd
    exact ⟨hh, hok, harch⟩

/-- The depth-first Wretch/disguise search never panics: the choice
lists stay in lockstep with the remaining visible roles, and every
complete assignment respects the visible roles, so `on_complete` is
only invoked on assignments satisfying `hf`. -/
theorem assign_dc_isSome {f : List Role → List Role → Option Bool}
    {visible : List (Option Role)} :
    ∀ (wcs dcs : List (List Role)) (wacc dacc : List Role),
      wcs.length = dcs.length →
      dacc.length + wcs.length = visible.length →
      (∀ k v, k < dacc.length → visible.get? k = some (some v) →
        dacc.get? k = some v) →
      (∀ wa da, wa.length = wacc.length + wcs.length →
        da.length = dacc.length + dcs.length →
        (∀ k v, visible.get? k = some (some v) → da.get? k = some v) →
        (f wa da).isSome) →
      (assign_disguises_and_check wcs dcs (visible.drop dacc.length) wacc dacc
        f).isSome := by
  intro wcs
  induction wcs with
  | nil =>
    intro dcs wacc dacc hlen hvlen hacc hf
    cases dcs with
    | cons dc drest => simp at hlen
    | nil =>
      refine hf wacc dacc (by simp) (by simp) fun k v hkv => ?_
      by_cases hk : k < dacc.length
      · exact hacc k v hk hkv
      · exfalso
        have hnone : visible.get? k = none := by
          rw [List.get?_eq_none]
          simp only [List.length_nil, Nat.add_zero] at hvlen
          omega
        rw [hnone] at hkv
        cases hkv
  | cons wc wrest ih =>
    intro dcs wacc dacc hlen hvlen hacc hf
    cases dcs with
    | nil => simp at hlen
    | cons dc drest =>
      have hdl : dacc.length < visible.length := by
        simp only [List.length_cons] at hvlen
        omega
      obtain ⟨req, hreq⟩ := get?_ex (l := visible) rfl hdl
      rw [drop_eq_cons_of_get? hreq]
      refine tryEach_isSome fun w hw => ?_
      refine tryEach_isSome fun d hd => ?_
      split
      · rfl
      · rename_i hmatch
        have hdv : ∀ v, req = some v → d = v := by
          intro v hv
          subst hv
          simp only [bne_iff_ne, ne_eq, Decidable.not_not] at hmatch
          exact hmatch.symm
        have hstep := ih drest (wacc ++ [w]) (dacc ++ [d])
          (by simpa using hlen)
          (by simp at hvlen ⊢; omega)
          (by
            intro k v hk hkv
            by_cases hk' : k < dacc.length
            · rw [List.get?_append hk']
              exact hacc k v hk' hkv
            · have hkeq : k = dacc.length := by
                simp only [List.length_append, List.length_singleton] at hk
                omega
              subst hkeq
              rw [hreq] at hkv
              have hrv : req = some v := Option.some.inj hkv
              rw [List.get?_concat_length]
              rw [hdv v hrv])
          (by
            intro wa da h1 h2 h3
            refine hf wa da ?_ ?_ h3
            · simp only [List.length_append, List.length_singleton] at h1
              simp only [List.length_cons]
              omega
            · simp only [List.length_append, List.length_singleton] at h2
              simp only [List.length_cons]
              omega)
        have harg : (dacc ++ [d]).length = dacc.length + 1 := by simp
        rw [harg] at hstep
        exact hstep

theorem match_assign_total {o : Option Bool} {c : List Role} (ho : o.isSome) :
    ∃ ys, (match o with
      | none => (none : Option (List (List Role)))
      | some true => some [c]
      | some false => some []) = some ys := by
  obtain ⟨b, hb⟩ := Option.isSome_iff_exists.mp ho
  cases b
  · exact ⟨[], by rw [hb]⟩
  · exact ⟨[c], by rw [hb]⟩

set_option maxHeartbeats 1600000 in
/-- C3 (amended): `brute_force_solve` returns normally (with a possibly
empty list of worlds) on every input whose visible and observed lists
have equal length, provided additionally that every seat whose observed
statement is not `NoStatement` has a visible role which is handled by
`can_produce_statement`, that the statement's seat indexes lie in
`[0, N)` (an Oracle statement naming at least two seats), and that a
visible Architect only occurs at tables of at least two seats.  The
over-constrained case then yields `some []`, never a panic. -/
theorem brute_force_solve_total (deck : List Role)
    (visible confirmed : List (Option Role)) (observed : List RoleStatement)
    (villagers outcasts minions demons : Nat) (verbose : Bool)
    (hlen : visible.length = observed.length)
    (hstmt : ∀ k stmt, observed.get? k = some stmt →
      stmt ≠ RoleStatement.NoStatement →
      ∃ v, visible.get? k = some (some v) ∧ handled_visible v = true
        ∧ stmt_indexes_ok observed.length stmt = true
        ∧ (v = Role.Architect → 2 ≤ observed.length)) :
    ∃ ws, brute_force_solve deck visible confirmed observed
      villagers outcasts minions demons verbose = some ws := by
  unfold brute_force_solve
  rw [if_neg (by simp [hlen])]
  refine optFlatMap_total fun v_combo hv => ?_
  refine optFlatMap_total fun o_combo ho => ?_
  refine optFlatMap_total fun m_combo hm => ?_
  refine optFlatMap_total fun d_combo hd => ?_
  refine optFlatMap_total fun combined hcomb => ?_
  refine optFlatMap_total fun candidate hcand_mem => ?_
  beta_reduce
  cases hc : confirmed_roles_ok candidate confirmed with
  | false =>
    exact ⟨[], rfl⟩
  | true =>
    have hcand_len : candidate.length = visible.length := by
      have := permute_multiset_length visible.length _ [] _ candidate hcand_mem
      simpa using this
    have hassign : (assign_disguises_and_check
        (build_choices candidate
          (deck.filter fun r => r.group == Group.Minion)
          (deck.filter fun r => r.alignment != Alignment.Evil)
          (combined.filter fun r =>
            r.group == Group.Villager && !(v_combo.contains r))
          (deck.filter fun r =>
            r.group == Group.Villager && !(v_combo.contains r))).1
        (build_choices candidate
          (deck.filter fun r => r.group == Group.Minion)
          (deck.filter fun r => r.alignment != Alignment.Evil)
          (combined.filter fun r =>
            r.group == Group.Villager && !(v_combo.contains r))
          (deck.filter fun r =>
            r.group == Group.Villager && !(v_combo.contains r))).2
        visible [] []
        (fun wretch_assign disguise_assign =>
          statements_match candidate wretch_assign disguise_assign
            observed verbose)).isSome := by
      refine assign_dc_isSome _ _ [] []
        (by simp [build_choices]) (by simp [build_choices, hcand_len])
        (fun k v hk => absurd hk (by simp)) ?_
      intro wa da hwa hda hresp
      refine statements_match_isSome (n := observed.length)
        (hcand_len.trans hlen) ?_ ?_ rfl ?_
      · simp only [build_choices, List.length_nil, List.length_map,
          Nat.zero_add] at hwa
        rw [hwa, hcand_len, hlen]
      · simp only [build_choices, List.length_nil, List.length_map,
          Nat.zero_add] at hda
        rw [hda, hcand_len, hlen]
      · intro k stmt hk hne
        obtain ⟨v, hvk, hh, hok2, harch⟩ := hstmt k stmt hk hne
        exact ⟨v, hresp k v hvk, hh, hok2, harch⟩
    exact match_assign_total hassign

/-- C3 (counterexample): the original claim fails: with one seat, a
visible Poet (an input satisfying every well-formedness condition of the
claim: all three lists of length 1, quotas summing to 1, no out-of-range
statement index) and an observed Hunter statement, `can_produce_statement`
hits its catch-all panic, so `brute_force_solve` panics instead of
returning a list. -/
theorem solve_panics_on_unhandled_visible :
    brute_force_solve [Role.Poet] [some Role.Poet] [none]
      [RoleStatement.Hunter 1] 1 0 0 0 false = none := by decide

theorem brute_force_solve_total_witness :
    ∃ ws, brute_force_solve [Role.Confessor] [some Role.Confessor] [none]
      [RoleStatement.Confessor ConfessorStatement.IAmGood] 1 0 0 0 false
      = some ws :=
  brute_force_solve_total [Role.Confessor] [some Role.Confessor] [none]
    [RoleStatement.Confessor ConfessorStatement.IAmGood] 1 0 0 0 false rfl
    (by
      intro k stmt hk hne
      cases k with
      | zero =>
        have hstmt0 : stmt = RoleStatement.Confessor ConfessorStatement.IAmGood :=
          (Option.some.inj hk).symm
        subst hstmt0
        exact ⟨Role.Confessor, rfl, rfl, rfl, fun h => Role.noConfusion h⟩
      | succ k => exact Option.noConfusion hk)

end DemonDeduce
